import Mathlib

/-!
# Verification of the vec2gjson scene-to-GeoJSON converter

This file gives a shallow embedding, in Lean 4, of the Figma-plugin code that
converts a hierarchical scene of 2-D shape nodes into GeoJSON-like feature
collections, together with theorems about the embedded definitions.

The repository contains several variants of the same engine:
* `code.ts` — the name-parsing variant (`facility,category,floor` names),
* `part_001` — an intermediate variant (verbatim ids, hole rings, point ellipses),
* `part_002` — the stairs-aware variant (line hatches inside stairs frames),
* `part_003` — the richest variant (stairs shapes, arc-tessellated ellipses),
* `part_004` — a trimmed variant of `part_001`.

Numeric values of the host (JS doubles) are modelled as exact rationals `ℚ`
for the variants whose arithmetic is `+`, `-`, `/2`, and as real numbers `ℝ`
for the `part_003` variant whose ellipse branch evaluates sine/cosine.
-/

namespace Vec2GJson

/-- One edge of a vector network: an unordered pair of vertex indices,
stored as a `start`/`end` pair exactly as in the Figma `VectorSegment` type. -/
structure VectorSegment where
  start : Nat
  «end» : Nat
  deriving DecidableEq, Repr

/-- Scan of the remaining segment list for the first segment incident to the
current tail vertex.  Mirrors the `for` loop with `splice(i, 1)` inside
`traceSingleLoop`: it returns the other endpoint of the first incident segment
together with the list with that segment removed (order preserved). -/
def findNext (current : Nat) : List VectorSegment → Option (Nat × List VectorSegment)
  | [] => none
  | s :: rest =>
    if s.start = current then some (s.«end», rest)
    else if s.«end» = current then some (s.start, rest)
    else
      match findNext current rest with
      | some (v, l) => some (v, s :: l)
      | none => none

/-- The `while (remainingSegments.length > 0)` loop of `traceSingleLoop`.
Each iteration of the source loop removes exactly one segment from the working
copy, so the loop runs at most `remaining.length` times; the `fuel` argument
is initialised to that bound, making the recursion structural. -/
def traceLoopAux : Nat → Nat → List Nat → List VectorSegment → List Nat
  | 0, _, acc, _ => acc
  | fuel + 1, current, acc, remaining =>
    match findNext current remaining with
    | none => acc
    | some (v, rest) => traceLoopAux fuel v (acc ++ [v]) rest

/-- Embedding of `traceSingleLoop` (identical in `part_001`–`part_004`):
reconstructs the ordered vertex-index sequence of a single loop from an
unordered segment list, dropping the closing duplicate when the trace returns
to its starting vertex. -/
def traceSingleLoop (segments : List VectorSegment) : List Nat :=
  match segments with
  | [] => []
  | firstSegment :: remainingSegments =>
    let orderedIndices :=
      traceLoopAux remainingSegments.length firstSegment.«end»
        [firstSegment.start, firstSegment.«end»] remainingSegments
    if orderedIndices.head? = orderedIndices.getLast? then
      orderedIndices.dropLast
    else
      orderedIndices

example : traceSingleLoop [⟨0, 1⟩, ⟨1, 2⟩, ⟨2, 3⟩, ⟨3, 0⟩] = [0, 1, 2, 3] := by decide

example : traceSingleLoop [⟨0, 1⟩, ⟨1, 2⟩] = [0, 1, 2] := by decide

example : traceSingleLoop [⟨0, 1⟩, ⟨2, 3⟩] = [0, 1] := by decide

/-! ## Simple cycles and the correctness of the Loop Tracer

To state that an edge list "forms one simple cycle" we compare edge lists as
multisets of unordered vertex pairs: a segment is normalised to the pair of
its endpoints in ascending order, which identifies the two orientations of
the same edge. -/

/-- Endpoints of a segment as an order-normalised pair, identifying `{a,b}`
with `{b,a}`. -/
def toPair (s : VectorSegment) : Nat × Nat :=
  if s.start ≤ s.«end» then (s.start, s.«end») else (s.«end», s.start)

/-- A segment is incident to vertex `c` when `c` is one of its endpoints. -/
def incident (c : Nat) (s : VectorSegment) : Prop :=
  s.start = c ∨ s.«end» = c

instance (c : Nat) (s : VectorSegment) : Decidable (incident c s) := by
  unfold incident; infer_instance

/-- Edge list of an open chain visiting the given vertices in order. -/
def pathSegs : List Nat → List VectorSegment
  | a :: b :: t => ⟨a, b⟩ :: pathSegs (b :: t)
  | _ => []

/-- Edge list of the closed cycle visiting the given vertices in order and
returning to the first one. -/
def cycleSegs : List Nat → List VectorSegment
  | [] => []
  | a :: t => pathSegs ((a :: t) ++ [a])

/-- The multiset of (unordered) edges of a segment list. -/
def symList (l : List VectorSegment) : Multiset (Nat × Nat) :=
  (l.map toPair : List (Nat × Nat))

/-- An edge list forms one simple cycle on the (pairwise distinct) vertex list
`vs` when, as a multiset of unordered edges, it equals the edge set of the
closed cycle through `vs`. -/
def IsSimpleCycle (vs : List Nat) (segments : List VectorSegment) : Prop :=
  vs.Nodup ∧ 3 ≤ vs.length ∧ (segments.map toPair).Perm ((cycleSegs vs).map toPair)

instance (vs : List Nat) (segments : List VectorSegment) :
    Decidable (IsSimpleCycle vs segments) := by
  unfold IsSimpleCycle; infer_instance

/-- All vertex indices occurring in an edge list. -/
def segVertices (segments : List VectorSegment) : List Nat :=
  segments.flatMap fun s => [s.start, s.«end»]

@[simp]
theorem symList_nil : symList [] = 0 := rfl

@[simp]
theorem symList_cons (s : VectorSegment) (l : List VectorSegment) :
    symList (s :: l) = toPair s ::ₘ symList l := rfl

@[simp]
theorem symList_append (l₁ l₂ : List VectorSegment) :
    symList (l₁ ++ l₂) = symList l₁ + symList l₂ := by
  simp [symList]

theorem toPair_swap (a b : Nat) : toPair ⟨a, b⟩ = toPair ⟨b, a⟩ := by
  simp only [toPair]
  split_ifs with h₁ h₂ h₂
  · have : a = b := Nat.le_antisymm h₁ h₂
    subst this; rfl
  · rfl
  · rfl
  · omega

theorem toPair_eq_iff {s t : VectorSegment} :
    toPair s = toPair t ↔
      (s.start = t.start ∧ s.«end» = t.«end») ∨ (s.start = t.«end» ∧ s.«end» = t.start) := by
  rcases s with ⟨a, b⟩
  rcases t with ⟨c, d⟩
  simp only [toPair]
  split_ifs <;> simp [Prod.ext_iff] <;> omega

theorem incident_of_toPair_eq {c : Nat} {s t : VectorSegment} (hp : toPair s = toPair t)
    (h : incident c s) : incident c t := by
  rcases toPair_eq_iff.mp hp with ⟨h₁, h₂⟩ | ⟨h₁, h₂⟩ <;>
    rcases h with h | h <;> unfold incident at * <;> omega

theorem pathSegs_length : ∀ l : List Nat, (pathSegs l).length = l.length - 1
  | [] => rfl
  | [_] => rfl
  | _ :: b :: t => by
    simpa [pathSegs] using pathSegs_length (b :: t)

theorem pathSegs_mem_endpoints {l : List Nat} {s : VectorSegment} (h : s ∈ pathSegs l) :
    s.start ∈ l ∧ s.«end» ∈ l := by
  induction l with
  | nil => simp [pathSegs] at h
  | cons a t ih =>
    match t, h with
    | b :: t, h =>
      rcases List.mem_cons.mp h with h | h
      · subst h; simp
      · have := ih h
        exact ⟨List.mem_cons_of_mem _ this.1, List.mem_cons_of_mem _ this.2⟩

theorem mem_pathSegs_endpoint {l : List Nat} (hl : 2 ≤ l.length) {v : Nat} (hv : v ∈ l) :
    ∃ s ∈ pathSegs l, v = s.start ∨ v = s.«end» := by
  induction l with
  | nil => simp at hv
  | cons a t ih =>
    match t with
    | [] => simp at hl
    | b :: t =>
      rcases List.mem_cons.mp hv with h | h
      · exact ⟨⟨a, b⟩, by simp [pathSegs], Or.inl h⟩
      · match t with
        | [] =>
          have hb : v = b := by simpa using h
          exact ⟨⟨a, b⟩, by simp [pathSegs], Or.inr hb⟩
        | c :: t =>
          rcases ih (by simp) h with ⟨s, hs, hvs⟩
          refine ⟨s, ?_, hvs⟩
          simp only [pathSegs]
          exact List.mem_cons_of_mem _ hs

theorem mem_symList_iff {p : Nat × Nat} {l : List VectorSegment} :
    p ∈ symList l ↔ ∃ s ∈ l, toPair s = p := by
  simp [symList]

theorem symList_perm {l₁ l₂ : List VectorSegment} (h : l₁.Perm l₂) :
    symList l₁ = symList l₂ :=
  Multiset.coe_eq_coe.mpr (h.map toPair)

theorem pathSegs_snoc :
    ∀ (l : List Nat), l ≠ [] → ∀ (z d : Nat),
      pathSegs (l ++ [z]) = pathSegs l ++ [⟨l.getLastD d, z⟩]
  | [x], _, z, d => rfl
  | x :: y :: t, _, z, d => by
    show (⟨x, y⟩ : VectorSegment) :: pathSegs ((y :: t) ++ [z]) =
      (⟨x, y⟩ : VectorSegment) :: (pathSegs (y :: t) ++ [⟨(y :: t).getLastD x, z⟩])
    exact congrArg _ (pathSegs_snoc (y :: t) (by simp) z x)

theorem getLastD_reverse (l : List Nat) (d : Nat) : l.reverse.getLastD d = l.headD d := by
  rw [List.getLastD_eq_getLast?, List.getLast?_reverse, List.headD_eq_head?]

theorem headD_reverse (l : List Nat) (d : Nat) : l.reverse.headD d = l.getLastD d := by
  rw [List.headD_eq_head?, List.head?_reverse, List.getLastD_eq_getLast?]

theorem cycleSegs_eq_pathSegs {l : List Nat} (hl : l ≠ []) :
    cycleSegs l = pathSegs (l ++ [l.headD 0]) := by
  cases l with
  | nil => exact absurd rfl hl
  | cons a t => rfl

theorem cycleSegs_length {l : List Nat} (hl : l ≠ []) :
    (cycleSegs l).length = l.length := by
  rw [cycleSegs_eq_pathSegs hl, pathSegs_length]
  simp

theorem cycleSegs_mem_endpoints {l : List Nat} {s : VectorSegment} (h : s ∈ cycleSegs l) :
    s.start ∈ l ∧ s.«end» ∈ l := by
  cases l with
  | nil => simp [cycleSegs] at h
  | cons a t =>
    have := pathSegs_mem_endpoints (l := (a :: t) ++ [a]) h
    constructor
    · rcases List.mem_append.mp this.1 with h₁ | h₁
      · exact h₁
      · have hs : s.start = a := by simpa using h₁
        simp [hs]
    · rcases List.mem_append.mp this.2 with h₁ | h₁
      · exact h₁
      · have hs : s.«end» = a := by simpa using h₁
        simp [hs]

theorem symList_pathSegs_cons {l : List Nat} (hl : l ≠ []) (x : Nat) :
    symList (pathSegs (x :: l)) = symList (pathSegs l) + {toPair ⟨x, l.headD 0⟩} := by
  cases l with
  | nil => exact absurd rfl hl
  | cons y t =>
    show toPair ⟨x, y⟩ ::ₘ symList (pathSegs (y :: t)) = _
    rw [← Multiset.singleton_add, add_comm]
    rfl

theorem symList_cycleSegs_decomp {l : List Nat} (hl : l ≠ []) :
    symList (cycleSegs l) = symList (pathSegs l) + {toPair ⟨l.getLastD 0, l.headD 0⟩} := by
  rw [cycleSegs_eq_pathSegs hl, pathSegs_snoc l hl (l.headD 0) 0]
  simp

theorem symList_pathSegs_reverse :
    ∀ l : List Nat, symList (pathSegs l.reverse) = symList (pathSegs l)
  | [] => rfl
  | [_] => rfl
  | x :: y :: t => by
    have ih := symList_pathSegs_reverse (y :: t)
    have hrev : (x :: y :: t).reverse = (y :: t).reverse ++ [x] := by
      simp [List.reverse_cons]
    rw [hrev, pathSegs_snoc ((y :: t).reverse) (by simp) x 0,
      getLastD_reverse (y :: t) 0]
    simp only [symList_append, ih]
    rw [symList_pathSegs_cons (l := y :: t) (by simp) x]
    simp [toPair_swap]

theorem symList_cycleSegs_reverse {l : List Nat} (hl : l ≠ []) :
    symList (cycleSegs l.reverse) = symList (cycleSegs l) := by
  have hrne : l.reverse ≠ [] := by
    simpa using hl
  rw [symList_cycleSegs_decomp hrne, symList_cycleSegs_decomp hl,
    symList_pathSegs_reverse, getLastD_reverse, headD_reverse,
    toPair_swap]

theorem cycleSegs_rotate_one {l : List Nat} (hl : 2 ≤ l.length) :
    cycleSegs (l.rotate 1) = (cycleSegs l).rotate 1 := by
  match l, hl with
  | a :: b :: t, _ =>
    have h₁ : (a :: b :: t).rotate 1 = (b :: t) ++ [a] := by
      rw [List.rotate_cons_succ, List.rotate_zero]
    have h₂ : cycleSegs (a :: b :: t) =
        (⟨a, b⟩ : VectorSegment) :: pathSegs (b :: (t ++ [a])) := rfl
    have h₃ : ((⟨a, b⟩ : VectorSegment) :: pathSegs (b :: (t ++ [a]))).rotate 1 =
        pathSegs (b :: (t ++ [a])) ++ [⟨a, b⟩] := by
      rw [List.rotate_cons_succ, List.rotate_zero]
    have h₄ : cycleSegs ((b :: t) ++ [a]) =
        pathSegs ((b :: (t ++ [a])) ++ [b]) := rfl
    have h₅ : (b :: (t ++ [a])).getLastD 0 = a := by
      rw [List.getLastD_eq_getLast?]
      show ((b :: t) ++ [a]).getLast?.getD 0 = a
      rw [List.getLast?_concat]
      rfl
    rw [h₁, h₄, pathSegs_snoc _ (by simp) b 0, h₅, h₂, h₃]

theorem cycleSegs_rotate {l : List Nat} (hl : 2 ≤ l.length) :
    ∀ i : Nat, cycleSegs (l.rotate i) = (cycleSegs l).rotate i
  | 0 => by simp
  | i + 1 => by
    have hr : l.rotate (i + 1) = (l.rotate i).rotate 1 := by
      rw [List.rotate_rotate]
    have hil : 2 ≤ (l.rotate i).length := by
      simpa using hl
    rw [hr, cycleSegs_rotate_one hil, cycleSegs_rotate hl i, List.rotate_rotate]

theorem cycle_align {vs : List Nat} (h3 : 3 ≤ vs.length) {a b : Nat}
    (hmem : toPair ⟨a, b⟩ ∈ symList (cycleSegs vs)) :
    ∃ t : List Nat, (a :: b :: t).Perm vs ∧
      symList (cycleSegs (a :: b :: t)) = symList (cycleSegs vs) := by
  have hvne : vs ≠ [] := by
    intro h; rw [h] at h3; simp at h3
  obtain ⟨e, he, hep⟩ := mem_symList_iff.mp hmem
  obtain ⟨i, hi⟩ := List.mem_iff_get?.mp he
  have hilt : i < (cycleSegs vs).length := (List.get?_eq_some.mp hi).1
  have hclen : (cycleSegs vs).length = vs.length := cycleSegs_length hvne
  have hm3 : 3 ≤ (vs.rotate i).length := by
    rw [List.length_rotate]; exact h3
  have hrot : cycleSegs (vs.rotate i) = (cycleSegs vs).rotate i :=
    cycleSegs_rotate (by omega) i
  have hsymrot : symList (cycleSegs (vs.rotate i)) = symList (cycleSegs vs) := by
    rw [hrot]; exact symList_perm (List.rotate_perm _ _)
  have hpermrot : (vs.rotate i).Perm vs := List.rotate_perm _ _
  -- the head edge of the rotated cycle is the matched edge `e`
  have hhead : (cycleSegs (vs.rotate i)).head? = some e := by
    rw [hrot, ← List.get?_zero, List.get?_rotate (by omega), Nat.zero_add,
      Nat.mod_eq_of_lt hilt, hi]
  match hmeq : vs.rotate i, hm3 with
  | c₁ :: c₂ :: t₁, _ =>
    rw [hmeq] at hhead hpermrot hsymrot
    have hce : (⟨c₁, c₂⟩ : VectorSegment) = e := by
      have : (cycleSegs (c₁ :: c₂ :: t₁)).head? = some (⟨c₁, c₂⟩ : VectorSegment) := rfl
      rw [this] at hhead
      exact Option.some.inj hhead
    have hcp : toPair ⟨c₁, c₂⟩ = toPair ⟨a, b⟩ := by rw [hce, hep]
    rcases toPair_eq_iff.mp hcp with ⟨h₁, h₂⟩ | ⟨h₁, h₂⟩
    · have h₁' : c₁ = a := h₁
      have h₂' : c₂ = b := h₂
      rw [h₁', h₂'] at hpermrot hsymrot
      exact ⟨t₁, hpermrot, hsymrot⟩
    · have h₁' : c₁ = b := h₁
      have h₂' : c₂ = a := h₂
      rw [h₁', h₂'] at hpermrot hsymrot
      -- the edge is traversed backwards: reverse the cycle, then rotate the
      -- endpoints back to the front
      refine ⟨t₁.reverse, ?_, ?_⟩
      · have : (a :: b :: t₁.reverse).Perm (b :: a :: t₁) := by
          refine List.Perm.trans (List.Perm.swap b a t₁.reverse) ?_
          exact List.Perm.cons b (List.Perm.cons a (List.reverse_perm t₁))
        exact this.trans hpermrot
      · have hrev : (b :: a :: t₁).reverse = t₁.reverse ++ [a, b] := by
          simp
        have hv2 : a :: b :: t₁.reverse = ((b :: a :: t₁).reverse).rotate t₁.length := by
          rw [hrev, List.rotate_eq_drop_append_take (by simp)]
          have hdrop : List.drop t₁.length (t₁.reverse ++ [a, b]) = [a, b] := by
            have h := List.drop_left t₁.reverse [a, b]
            rw [List.length_reverse] at h
            exact h
          have htake : List.take t₁.length (t₁.reverse ++ [a, b]) = t₁.reverse := by
            have h := List.take_left t₁.reverse [a, b]
            rw [List.length_reverse] at h
            exact h
          rw [hdrop, htake]
          rfl
        rw [hv2]
        have hlen2 : 2 ≤ ((b :: a :: t₁).reverse).length := by simp
        rw [cycleSegs_rotate hlen2]
        have hs₁ : symList ((cycleSegs ((b :: a :: t₁).reverse)).rotate t₁.length) =
            symList (cycleSegs ((b :: a :: t₁).reverse)) :=
          symList_perm (List.rotate_perm _ _)
        rw [hs₁, symList_cycleSegs_reverse (by simp)]
        exact hsymrot

theorem findNext_unique {c w : Nat} (hcw : c ≠ w) :
    ∀ l : List VectorSegment,
      (∀ s ∈ l, incident c s → toPair s = toPair ⟨c, w⟩) →
      (∃ s ∈ l, incident c s) →
      ∃ rest, findNext c l = some (w, rest) ∧
        (l.map toPair).Perm (toPair ⟨c, w⟩ :: rest.map toPair)
  | [], _, hex => absurd hex (by simp)
  | s :: l₂, huniq, hex => by
    by_cases hinc : incident c s
    · have hsp := huniq s (by simp) hinc
      rcases toPair_eq_iff.mp hsp with ⟨h₁, h₂⟩ | ⟨h₁, h₂⟩
      · have h₁' : s.start = c := h₁
        have h₂' : s.«end» = w := h₂
        refine ⟨l₂, ?_, ?_⟩
        · simp only [findNext]
          rw [if_pos h₁', h₂']
        · simp only [List.map_cons, hsp]
          exact List.Perm.refl _
      · have h₁' : s.start = w := h₁
        have h₂' : s.«end» = c := h₂
        have hns : ¬s.start = c := by
          rw [h₁']; exact fun hh => hcw hh.symm
        refine ⟨l₂, ?_, ?_⟩
        · simp only [findNext]
          rw [if_neg hns, if_pos h₂', h₁']
        · simp only [List.map_cons, hsp]
          exact List.Perm.refl _
    · have hstart : ¬s.start = c := fun h => hinc (Or.inl h)
      have hend : ¬s.«end» = c := fun h => hinc (Or.inr h)
      have hex₂ : ∃ s₂ ∈ l₂, incident c s₂ := by
        rcases hex with ⟨s₂, hs₂, hinc₂⟩
        rcases List.mem_cons.mp hs₂ with h | h
        · rw [← h] at hinc
          exact absurd hinc₂ hinc
        · exact ⟨s₂, h, hinc₂⟩
      obtain ⟨rest₂, hfn, hperm⟩ :=
        findNext_unique hcw l₂ (fun s₂ h₂ => huniq s₂ (List.mem_cons_of_mem _ h₂)) hex₂
      refine ⟨s :: rest₂, ?_, ?_⟩
      · simp only [findNext]
        rw [if_neg hstart, if_neg hend, hfn]
      · have step : (toPair s :: l₂.map toPair).Perm
            (toPair s :: (toPair ⟨c, w⟩ :: rest₂.map toPair)) := hperm.cons _
        have sw : (toPair s :: (toPair ⟨c, w⟩ :: rest₂.map toPair)).Perm
            (toPair ⟨c, w⟩ :: (toPair s :: rest₂.map toPair)) :=
          List.Perm.swap _ _ _
        exact step.trans sw

theorem traceLoopAux_path :
    ∀ (ws : List Nat) (fuel : Nat) (c : Nat) (acc : List Nat)
      (remaining : List VectorSegment),
      (c :: ws).Nodup → remaining.length ≤ fuel →
      symList remaining = symList (pathSegs (c :: ws)) →
      traceLoopAux fuel c acc remaining = acc ++ ws
  | [], fuel, c, acc, remaining, _, _, hsym => by
    have h0 : ((remaining.map toPair : List (Nat × Nat)) : Multiset (Nat × Nat)) = 0 := hsym
    have hempty : remaining = [] :=
      List.map_eq_nil_iff.mp ((Multiset.coe_eq_zero _).mp h0)
    subst hempty
    cases fuel <;> simp [traceLoopAux, findNext]
  | w :: ws₂, fuel, c, acc, remaining, hnd, hfuel, hsym => by
    have hcons := List.nodup_cons.mp hnd
    have hcnotin : c ∉ w :: ws₂ := hcons.1
    have hnd₂ : (w :: ws₂).Nodup := hcons.2
    have hcw : c ≠ w := by
      intro h
      exact hcnotin (h ▸ List.mem_cons_self w ws₂)
    have hpath : pathSegs (c :: w :: ws₂) = ⟨c, w⟩ :: pathSegs (w :: ws₂) := rfl
    have huniq : ∀ s ∈ remaining, incident c s → toPair s = toPair ⟨c, w⟩ := by
      intro s hs hinc
      have hin : toPair s ∈ symList remaining := mem_symList_iff.mpr ⟨s, hs, rfl⟩
      rw [hsym, hpath] at hin
      obtain ⟨e, he, hetp⟩ := mem_symList_iff.mp hin
      rcases List.mem_cons.mp he with h | h
      · rw [← hetp, h]
      · exfalso
        have hince : incident c e := incident_of_toPair_eq hetp.symm hinc
        have hends := pathSegs_mem_endpoints h
        rcases hince with h₁ | h₁
        · exact hcnotin (h₁ ▸ hends.1)
        · exact hcnotin (h₁ ▸ hends.2)
    have hex : ∃ s ∈ remaining, incident c s := by
      have hin : toPair ⟨c, w⟩ ∈ symList remaining := by
        rw [hsym, hpath, symList_cons]
        exact Multiset.mem_cons_self _ _
      obtain ⟨s, hs, hstp⟩ := mem_symList_iff.mp hin
      exact ⟨s, hs, incident_of_toPair_eq hstp.symm (Or.inl rfl)⟩
    obtain ⟨rest, hfn, hperm⟩ := findNext_unique hcw remaining huniq hex
    have hlen : remaining.length = rest.length + 1 := by
      have := hperm.length_eq
      simpa using this
    have hremne : remaining ≠ [] := by
      intro h; rw [h] at hlen; simp at hlen
    match fuel, hfuel with
    | 0, hfuel =>
      exact absurd (List.length_eq_zero.mp (Nat.le_zero.mp hfuel)) hremne
    | fuel₁ + 1, hfuel =>
      have hsym₂ : symList rest = symList (pathSegs (w :: ws₂)) := by
        have h₁ : symList remaining = toPair ⟨c, w⟩ ::ₘ symList rest :=
          Multiset.coe_eq_coe.mpr hperm
        rw [hsym, hpath, symList_cons] at h₁
        exact ((Multiset.cons_inj_right _).mp h₁).symm
      have hfuel₂ : rest.length ≤ fuel₁ := by omega
      have ihres := traceLoopAux_path ws₂ fuel₁ w (acc ++ [w]) rest hnd₂ hfuel₂ hsym₂
      simp only [traceLoopAux, hfn]
      rw [ihres]
      simp

/-- Core correctness of the Loop Tracer: on an edge list forming one simple
cycle through the vertices `vs`, `traceSingleLoop` returns a permutation of
`vs` (in particular each vertex exactly once, closing duplicate dropped). -/
theorem traceSingleLoop_perm {segments : List VectorSegment} {vs : List Nat}
    (h : IsSimpleCycle vs segments) : (traceSingleLoop segments).Perm vs := by
  obtain ⟨hnd, h3, hperm⟩ := h
  have hvne : vs ≠ [] := by
    intro hh; rw [hh] at h3; simp at h3
  have hsymEq : symList segments = symList (cycleSegs vs) :=
    Multiset.coe_eq_coe.mpr hperm
  have hlen : segments.length = vs.length := by
    have h₁ := hperm.length_eq
    rw [List.length_map, List.length_map, cycleSegs_length hvne] at h₁
    exact h₁
  match segments, hsymEq, hlen with
  | [], _, hlen =>
    exfalso; rw [← hlen] at h3; simp at h3
  | ⟨a, b⟩ :: rest, hsymEq, hlen =>
    have hs₀ : toPair ⟨a, b⟩ ∈ symList (cycleSegs vs) := by
      rw [← hsymEq, symList_cons]
      exact Multiset.mem_cons_self _ _
    obtain ⟨t, hperm₂, hsym₂⟩ := cycle_align h3 hs₀
    have hnd₂ : (a :: b :: t).Nodup := hperm₂.symm.nodup hnd
    have hdecomp : symList (cycleSegs (a :: b :: t)) =
        toPair ⟨a, b⟩ ::ₘ symList (pathSegs (b :: (t ++ [a]))) := rfl
    have h₂ : symList ((⟨a, b⟩ : VectorSegment) :: rest) =
        symList (cycleSegs (a :: b :: t)) := hsymEq.trans hsym₂.symm
    have h₃ : toPair ⟨a, b⟩ ::ₘ symList rest =
        toPair ⟨a, b⟩ ::ₘ symList (pathSegs (b :: (t ++ [a]))) := h₂.trans hdecomp
    have hsymrest : symList rest = symList (pathSegs (b :: (t ++ [a]))) :=
      (Multiset.cons_inj_right _).mp h₃
    have hndpath : (b :: (t ++ [a])).Nodup := by
      have h₁ := List.nodup_cons.mp hnd₂
      have h₂ := List.nodup_cons.mp h₁.2
      refine List.nodup_cons.mpr ⟨?_, ?_⟩
      · intro hb
        rcases List.mem_append.mp hb with h | h
        · exact h₂.1 h
        · have hba : b = a := by simpa using h
          apply h₁.1
          rw [← hba]
          exact List.mem_cons_self b t
      · refine List.Nodup.append h₂.2 (List.nodup_singleton a) ?_
        intro x hx hxa
        have hxa' : x = a := by simpa using hxa
        apply h₁.1
        rw [← hxa']
        exact List.mem_cons_of_mem b hx
    have htrace : traceLoopAux rest.length b [a, b] rest = [a, b] ++ (t ++ [a]) :=
      traceLoopAux_path (t ++ [a]) rest.length b [a, b] rest hndpath (Nat.le_refl _)
        hsymrest
    have hres : traceSingleLoop (⟨a, b⟩ :: rest) = a :: b :: t := by
      simp only [traceSingleLoop, htrace]
      have hform : [a, b] ++ (t ++ [a]) = (a :: b :: t) ++ [a] := by simp
      rw [hform, List.getLast?_concat]
      have hh : ((a :: b :: t) ++ [a]).head? = some a := rfl
      rw [hh, if_pos rfl, List.dropLast_concat]
    rw [hres]
    exact hperm₂

theorem segVertices_iff_of_simple_cycle {segments : List VectorSegment} {vs : List Nat}
    (h : IsSimpleCycle vs segments) (v : Nat) :
    v ∈ segVertices segments ↔ v ∈ vs := by
  obtain ⟨hnd, h3, hperm⟩ := h
  have hvne : vs ≠ [] := by
    intro hh; rw [hh] at h3; simp at h3
  have hsymEq : symList segments = symList (cycleSegs vs) :=
    Multiset.coe_eq_coe.mpr hperm
  constructor
  · intro hv
    obtain ⟨s, hs, hvmem⟩ := List.mem_flatMap.mp hv
    have hvs : v = s.start ∨ v = s.«end» := by simpa using hvmem
    have hts : toPair s ∈ symList (cycleSegs vs) := by
      rw [← hsymEq]
      exact mem_symList_iff.mpr ⟨s, hs, rfl⟩
    obtain ⟨e, he, hetp⟩ := mem_symList_iff.mp hts
    have hends := cycleSegs_mem_endpoints he
    have hvinc : incident v s := by
      rcases hvs with h | h
      · exact Or.inl h.symm
      · exact Or.inr h.symm
    have hve : incident v e := incident_of_toPair_eq hetp.symm hvinc
    rcases hve with h | h
    · exact h ▸ hends.1
    · exact h ▸ hends.2
  · intro hv
    have hv2 : v ∈ vs ++ [vs.headD 0] := List.mem_append.mpr (Or.inl hv)
    have hlen2 : 2 ≤ (vs ++ [vs.headD 0]).length := by
      rw [List.length_append]
      simp only [List.length_singleton]
      omega
    obtain ⟨e, he, hve⟩ := mem_pathSegs_endpoint hlen2 hv2
    have he' : e ∈ cycleSegs vs := by
      rw [cycleSegs_eq_pathSegs hvne]
      exact he
    have hte : toPair e ∈ symList segments := by
      rw [hsymEq]
      exact mem_symList_iff.mpr ⟨e, he', rfl⟩
    obtain ⟨s, hs, hstp⟩ := mem_symList_iff.mp hte
    have hince : incident v e := by
      rcases hve with h | h
      · exact Or.inl h.symm
      · exact Or.inr h.symm
    have hvincs : incident v s := incident_of_toPair_eq hstp.symm hince
    rw [segVertices, List.mem_flatMap]
    refine ⟨s, hs, ?_⟩
    rcases hvincs with h | h
    · rw [h]; simp
    · rw [h]; simp

/-- The four segments of the square graph used by the specification's
Loop-Tracer example, starting at edge `(0, 1)`. -/
def squareSegments : List VectorSegment :=
  [⟨0, 1⟩, ⟨1, 2⟩, ⟨2, 3⟩, ⟨3, 0⟩]

/-- C3: for every edge list that forms one simple cycle, `traceSingleLoop`
returns an index list (closing duplicate already removed) containing only
vertex indices occurring in the input edge set, each exactly once; in
particular on the 4-edge square graph `{(0,1),(1,2),(2,3),(3,0)}` started at
edge `(0,1)` it returns `[0, 1, 2, 3]`. -/
theorem traceSingleLoop_simple_cycle :
    (∀ (segments : List VectorSegment) (vs : List Nat), IsSimpleCycle vs segments →
      (traceSingleLoop segments).Nodup ∧
        ∀ v : Nat, v ∈ traceSingleLoop segments ↔ v ∈ segVertices segments) ∧
    traceSingleLoop squareSegments = [0, 1, 2, 3] := by
  constructor
  · intro segments vs h
    have hp := traceSingleLoop_perm h
    refine ⟨hp.symm.nodup h.1, ?_⟩
    intro v
    rw [hp.mem_iff, segVertices_iff_of_simple_cycle h v]
  · decide

/-- Witness for C3: the square graph is a simple cycle on `[0, 1, 2, 3]`, and
the theorem applies to it, giving a duplicate-free trace. -/
theorem traceSingleLoop_simple_cycle_witness :
    IsSimpleCycle [0, 1, 2, 3] squareSegments ∧ (traceSingleLoop squareSegments).Nodup :=
  ⟨by decide,
    (traceSingleLoop_simple_cycle.1 squareSegments [0, 1, 2, 3] (by decide)).1⟩

/-! ## Scene and GeoJSON data model -/

/-- A vertex of a vector network, in the owning node's local coordinates. -/
structure Vertex (α : Type) where
  x : α
  y : α
  deriving DecidableEq, Repr

/-- A region of a vector network: a list of loops, each loop a list of
segment indices into the network's segment list. -/
structure VectorRegion where
  loops : List (List Nat)
  deriving DecidableEq, Repr

/-- A node's full vector network.  `regions` is `none` when the host supplies
no region information (`undefined` in the Figma API). -/
structure VectorNetwork (α : Type) where
  vertices : List (Vertex α)
  segments : List VectorSegment
  regions : Option (List VectorRegion)
  deriving DecidableEq, Repr

/-- A scene node, tagged by its Figma node type.  `other` stands for any node
type the engine does not process. -/
inductive SceneNode (α : Type) where
  | vector (name : String) (x y : α) (vectorNetwork : VectorNetwork α)
  | frame (name : String) (x y width height : α) (children : List (SceneNode α))
  | star (name : String) (x y width height : α)
  | ellipse (name : String) (x y width height : α)
      (arcData : Option (α × α)) (rotation : α)
  | other (name : String)

/-- A value stored in a feature's free-form property map. -/
inductive PropValue (α : Type) where
  | str (s : String)
  | num (n : α)
  deriving DecidableEq, Repr

/-- A GeoJSON-like geometry: Polygon (list of rings), Point, or LineString. -/
inductive Geometry (α : Type) where
  | polygon (coordinates : List (List (α × α)))
  | point (coordinates : α × α)
  | lineString (coordinates : List (α × α))
  deriving DecidableEq, Repr

/-- A GeoJSON-like feature: a geometry plus an ordered property map. -/
structure Feature (α : Type) where
  geometry : Geometry α
  properties : List (String × PropValue α)
  deriving DecidableEq, Repr

/-- A message posted to the UI sink (`figma.ui.postMessage`). -/
inductive UIMessage where
  | error (message : String)
  | exportGeojson (data : String) (filename : String)
  | exportAllFloors (data : String) (filenamePrefix : String)
  deriving DecidableEq, Repr

/-- The rings of a Polygon geometry (empty for other geometry kinds). -/
def polygonRings {α : Type} : Geometry α → List (List (α × α))
  | .polygon rings => rings
  | _ => []

/-- Lookup of a property by key, first match wins (JS object semantics for the
distinct keys the engine produces). -/
def getProp {α : Type} (key : String) (f : Feature α) : Option (PropValue α) :=
  f.properties.lookup key

/-- Embedding of JS `String.prototype.includes` (substring test). -/
def jsIncludes (s sub : String) : Bool :=
  decide (sub.toList.IsInfix s.toList)

example : jsIncludes "m-1-stairs-001" "stairs" = true := by decide
example : jsIncludes "hall" "stairs" = false := by decide

/-- Embedding of JS `String.prototype.split(',')` over the character list:
splits at every comma, keeping empty groups (`"a,,b"` gives three parts). -/
def splitChar (sep : Char) : List Char → List (List Char)
  | [] => [[]]
  | c :: rest =>
    match splitChar sep rest with
    | g :: gs => if c = sep then [] :: g :: gs else (c :: g) :: gs
    | [] => [[]]

/-- Embedding of `name.split(',')`. -/
def jsSplitComma (s : String) : List String :=
  (splitChar (Char.ofNat 44) s.data).map fun cs => String.mk cs

/-- Embedding of JS `String.prototype.trim` (ASCII whitespace model). -/
def jsTrim (s : String) : String :=
  String.mk (((s.data.dropWhile Char.isWhitespace).reverse.dropWhile
    Char.isWhitespace).reverse)

/-- ASCII lower-casing of one character. -/
def charToLower (c : Char) : Char :=
  if 65 ≤ c.toNat ∧ c.toNat ≤ 90 then Char.ofNat (c.toNat + 32) else c

/-- Embedding of JS `String.prototype.toLowerCase` (ASCII model). -/
def jsToLower (s : String) : String :=
  String.mk (s.data.map charToLower)

/-- Whether a string is a decimal integer numeral: an optional sign followed
by one or more digits and nothing else.  This is the plain reading of "the
floor segment is an integer". -/
def decimalIntString (s : String) : Bool :=
  match s.data with
  | [] => false
  | c :: rest =>
    let ds := if c = Char.ofNat 45 ∨ c = Char.ofNat 43 then rest else c :: rest
    !ds.isEmpty && ds.all Char.isDigit

example : jsSplitComma "a,b,3x" = ["a", "b", "3x"] := by decide
example : jsTrim "  a b " = "a b" := by decide
example : jsToLower "My-STAIRS-01" = "my-stairs-01" := by decide
example : decimalIntString "3x" = false := by decide
example : decimalIntString "-12" = true := by decide

/-- Embedding of `(n).toString().padStart(3, "0")` for the auxiliary-feature
sequence numbers inside stairs containers. -/
def padStart3 (s : String) : String :=
  if 3 ≤ s.length then s else String.mk (List.replicate (3 - s.length) (Char.ofNat 48)) ++ s

example : padStart3 (toString (1 : Nat)) = "001" := by decide
example : padStart3 (toString (12 : Nat)) = "012" := by decide
example : padStart3 (toString (1234 : Nat)) = "1234" := by decide

/-- Embedding of JS `parseInt(s, 10)` returning `none` for `NaN`: skip leading
whitespace, take an optional sign, then the longest digit prefix; fail only if
that prefix is empty. -/
def parseIntJS (s : String) : Option Int :=
  let cs := s.data.dropWhile Char.isWhitespace
  let signAndRest : Bool × List Char :=
    match cs with
    | c :: rest =>
      if c = Char.ofNat 45 then (true, rest)
      else if c = Char.ofNat 43 then (false, rest)
      else (false, cs)
    | [] => (false, [])
  let digits := signAndRest.2.takeWhile Char.isDigit
  if digits.isEmpty then none
  else
    let n : Nat := digits.foldl (fun acc c => acc * 10 + (c.toNat - 48)) 0
    some (if signAndRest.1 then -(n : Int) else (n : Int))

example : parseIntJS "12" = some 12 := by decide
example : parseIntJS "-3" = some (-3) := by decide
example : parseIntJS "3x" = some 3 := by decide
example : parseIntJS "2.9" = some 2 := by decide
example : parseIntJS "x3" = none := by decide
example : parseIntJS "" = none := by decide

/-- Coordinate Normalizer of the engine: the absolute position of a local
vertex is the owning node's offset plus the vertex's local position, and the
vertical axis is flipped against the floor frame's height. -/
def normalizeVertex {α : Type} [Add α] [Sub α] (frame_height nodeX nodeY : α)
    (v : Vertex α) : α × α :=
  (nodeX + v.x, frame_height - (nodeY + v.y))

mutual

/-- Vector descendants of one node, in depth-first order (embedding of
`node.findAll(n => n.type === 'VECTOR')` restricted to one subtree). -/
def vectorDescendants {α : Type} : SceneNode α → List (SceneNode α)
  | .vector name x y net => [.vector name x y net]
  | .frame _ _ _ _ _ children => vectorDescendantsList children
  | _ => []

/-- Vector descendants of a list of sibling nodes, in order. -/
def vectorDescendantsList {α : Type} : List (SceneNode α) → List (SceneNode α)
  | [] => []
  | n :: rest => vectorDescendants n ++ vectorDescendantsList rest

end

mutual

/-- Frame descendants of one node, depth-first (embedding of
`node.findAll(n => n.type === 'FRAME')` restricted to one subtree). -/
def frameDescendants {α : Type} : SceneNode α → List (SceneNode α)
  | .frame name x y w h children =>
    SceneNode.frame name x y w h children :: frameDescendantsList children
  | _ => []

/-- Frame descendants of a list of sibling nodes, in order. -/
def frameDescendantsList {α : Type} : List (SceneNode α) → List (SceneNode α)
  | [] => []
  | n :: rest => frameDescendants n ++ frameDescendantsList rest

end

/-- Number of success (non-error) messages in a message list. -/
def countSuccess (msgs : List UIMessage) : Nat :=
  (msgs.filter fun m =>
    match m with
    | .error _ => false
    | _ => true).length

/-! ## The `part_002` variant: stairs-aware engine over exact rationals -/

/-- Ring-closing step used throughout the engine: when the coordinate list is
non-empty, its first coordinate is pushed again at the end
(`coordinates.push(coordinates[0])`). -/
def closeRing {α : Type} (d : α) (l : List α) : List α :=
  if 0 < l.length then l ++ [l.headD d] else l

/-- Axis-aligned bounding-box ring of a frame/star node, Y-flipped: the five
corners `[x,y] [x+w,y] [x+w,y+h] [x,y+h] [x,y]`. -/
def boxRing {α : Type} [Add α] [Sub α] (frame_height x y width height : α) :
    List (α × α) :=
  [(x, y), (x + width, y), (x + width, y + height), (x, y + height), (x, y)].map
    fun v => (v.1, frame_height - v.2)

/-- One stairs-hatch LineString of the `part_002` variant: emitted for a
vector descendant having exactly 2 vertices and 1 segment; `index` is the
0-based position of the descendant in the `findAll` result, and the feature's
identifier carries the zero-padded 1-based sequence number. -/
def stairsLineFeature_p2 {α : Type} [Zero α] [Add α] [Sub α] [Div α] [OfNat α 2] (frame_height : α)
    (facilityId : String) (frameX frameY : α) (index : Nat) :
    SceneNode α → Option (Feature α)
  | .vector _ lx ly net =>
    if net.vertices.length = 2 ∧ net.segments.length = 1 then
      let v1 := net.vertices.getD 0 ⟨0, 0⟩
      let v2 := net.vertices.getD 1 ⟨0, 0⟩
      let lineCoordinates :=
        [(frameX + lx + v1.x, frame_height - (frameY + ly + v1.y)),
         (frameX + lx + v2.x, frame_height - (frameY + ly + v2.y))]
      let lineIndex := padStart3 (toString (index + 1))
      some { geometry := .lineString lineCoordinates,
             properties := [("id", .str (facilityId ++ "-line-" ++ lineIndex)),
               ("parentId", .str facilityId),
               ("category", .str "stairs-hatch")] }
    else none
  | _ => none

/-- Hole rings of a vector node (`part_002` and `part_001` donut handling):
every loop after the first one of the first region is traced independently,
skipped when it yields fewer than 3 indices, normalized, and closed. -/
def holes_p2 {α : Type} [Zero α] [Add α] [Sub α] [Div α] [OfNat α 2] (frame_height x y : α)
    (vertices : List (Vertex α)) (segments : List VectorSegment) :
    Option (List VectorRegion) → List (List (α × α))
  | none => []
  | some regions =>
    if 0 < regions.length then
      ((regions.headD ⟨[]⟩).loops.drop 1).filterMap fun loop =>
        let now_segments := loop.map fun si => segments.getD si ⟨0, 0⟩
        let innerOrderedVertexIndices := traceSingleLoop now_segments
        if innerOrderedVertexIndices.length < 3 then none
        else
          let innerOrderedVertices :=
            innerOrderedVertexIndices.map fun i => vertices.getD i ⟨0, 0⟩
          let innerCoordinates :=
            innerOrderedVertices.map fun v => normalizeVertex frame_height x y v
          some (closeRing (0, 0) innerCoordinates)
    else []

/-- Embedding of `generate_feature_list_from_one_frame` of the `part_002`
variant, for one child node of the floor frame. -/
def featuresForNode_p2 {α : Type} [Zero α] [Add α] [Sub α] [Div α] [OfNat α 2] (frame_height : α) :
    SceneNode α → List (Feature α)
  | .vector name x y net =>
    let orderedVertexIndices := traceSingleLoop net.segments
    if orderedVertexIndices.length < 3 then []
    else
      let orderedVertices := orderedVertexIndices.map fun i => net.vertices.getD i ⟨0, 0⟩
      let outer := orderedVertices.map fun v => normalizeVertex frame_height x y v
      [{ geometry := .polygon (closeRing (0, 0) outer ::
          holes_p2 frame_height x y net.vertices net.segments net.regions),
         properties := [("id", .str name)] }]
  | .frame name x y width height children =>
    if jsIncludes (jsToLower name) "stairs" then
      let innerLines := vectorDescendantsList children
      { geometry := Geometry.polygon [boxRing frame_height x y width height],
        properties := [("id", .str name)] } ::
        innerLines.enum.filterMap fun p =>
          stairsLineFeature_p2 frame_height name x y p.1 p.2
    else
      [{ geometry := .polygon [boxRing frame_height x y width height],
         properties := [("id", .str name)] }]
  | .star name x y width height =>
    [{ geometry := .polygon [boxRing frame_height x y width height],
       properties := [("id", .str name), ("shapeType", .str "STAR")] }]
  | .ellipse name x y width height _ _ =>
    let centerX := x + width / 2
    let centerY := y + height / 2
    let radius := width / 2
    [{ geometry := .point (centerX, frame_height - centerY),
       properties := [("id", .str name), ("radius", .num radius)] }]
  | .other _ => []

/-- Embedding of the `part_002` floor collector: the floor's direct children,
each run through the per-node synthesizer; an empty floor yields `[]`. -/
def generate_p2 {α : Type} [Zero α] [Add α] [Sub α] [Div α] [OfNat α 2] (frame_height : α)
    (targetNodes : List (SceneNode α)) : List (Feature α) :=
  if targetNodes.length = 0 then []
  else targetNodes.flatMap (featuresForNode_p2 frame_height)

theorem closeRing_eq_of_ne {α : Type} (d : α) {l : List α} (hl : l ≠ []) :
    closeRing d l = l ++ [l.headD d] := by
  rw [closeRing, if_pos (List.length_pos.mpr hl)]

theorem closeRing_closed {α : Type} (d : α) {l : List α} (h3 : 3 ≤ l.length) :
    (closeRing d l).head? = (closeRing d l).getLast? ∧ 4 ≤ (closeRing d l).length := by
  have hl : l ≠ [] := by
    intro h; rw [h] at h3; simp at h3
  rw [closeRing_eq_of_ne d hl]
  constructor
  · rw [List.getLast?_concat]
    match l, hl with
    | x :: t, _ => rfl
  · rw [List.length_append]
    simp only [List.length_singleton]
    omega

theorem boxRing_closed {α : Type} [Add α] [Sub α] (H x y w h : α) :
    (boxRing H x y w h).head? = (boxRing H x y w h).getLast? ∧
      4 ≤ (boxRing H x y w h).length :=
  ⟨rfl, by norm_num [boxRing]⟩

theorem holes_p2_spec {α : Type} [Zero α] [Add α] [Sub α] [Div α] [OfNat α 2]
    {H x y : α} {vertices : List (Vertex α)}
    {segments : List VectorSegment} {regions : Option (List VectorRegion)}
    {r : List (α × α)} (hr : r ∈ holes_p2 H x y vertices segments regions) :
    ∃ l : List (α × α), 3 ≤ l.length ∧ r = closeRing (0, 0) l := by
  match regions with
  | none => simp [holes_p2] at hr
  | some regions =>
    simp only [holes_p2] at hr
    by_cases hreg : 0 < regions.length
    · rw [if_pos hreg] at hr
      obtain ⟨loop, _, hbody⟩ := List.mem_filterMap.mp hr
      by_cases hlt :
          (traceSingleLoop (loop.map fun si => segments.getD si ⟨0, 0⟩)).length < 3
      · rw [if_pos hlt] at hbody
        exact absurd hbody (by simp)
      · rw [if_neg hlt] at hbody
        refine ⟨_, ?_, (Option.some.inj hbody).symm⟩
        simp only [List.length_map]
        omega
    · rw [if_neg hreg] at hr
      simp at hr

theorem stairsLineFeature_p2_rings {α : Type} [Zero α] [Add α] [Sub α] [Div α] [OfNat α 2]
    {H : α} {fid : String} {fx fy : α} {i : Nat}
    {v : SceneNode α} {f : Feature α}
    (h : stairsLineFeature_p2 H fid fx fy i v = some f) :
    polygonRings f.geometry = [] := by
  match v with
  | .vector nm lx ly net =>
    simp only [stairsLineFeature_p2] at h
    by_cases hc : net.vertices.length = 2 ∧ net.segments.length = 1
    · rw [if_pos hc] at h
      rw [← Option.some.inj h]
      rfl
    · rw [if_neg hc] at h
      exact absurd h (by simp)
  | .frame .. => exact absurd h (by simp [stairsLineFeature_p2])
  | .star .. => exact absurd h (by simp [stairsLineFeature_p2])
  | .ellipse .. => exact absurd h (by simp [stairsLineFeature_p2])
  | .other _ => exact absurd h (by simp [stairsLineFeature_p2])

theorem featuresForNode_p2_rings {α : Type} [Zero α] [Add α] [Sub α] [Div α] [OfNat α 2]
    {H : α} {node : SceneNode α} {f : Feature α}
    (hf : f ∈ featuresForNode_p2 H node) {r : List (α × α)}
    (hr : r ∈ polygonRings f.geometry) :
    r.head? = r.getLast? ∧ 4 ≤ r.length := by
  match node with
  | .vector name x y net =>
    simp only [featuresForNode_p2] at hf
    by_cases hlt : (traceSingleLoop net.segments).length < 3
    · rw [if_pos hlt] at hf
      simp at hf
    · rw [if_neg hlt] at hf
      rw [List.mem_singleton] at hf
      subst hf
      simp only [polygonRings] at hr
      rcases List.mem_cons.mp hr with hr | hr
      · subst hr
        apply closeRing_closed
        simp only [List.length_map]
        omega
      · obtain ⟨l, hl3, hleq⟩ := holes_p2_spec hr
        subst hleq
        exact closeRing_closed _ hl3
  | .frame name x y w h children =>
    simp only [featuresForNode_p2] at hf
    by_cases hst : jsIncludes (jsToLower name) "stairs" = true
    · rw [if_pos hst] at hf
      rcases List.mem_cons.mp hf with hf | hf
      · subst hf
        simp only [polygonRings, List.mem_singleton] at hr
        subst hr
        exact boxRing_closed H x y w h
      · obtain ⟨p, _, hbody⟩ := List.mem_filterMap.mp hf
        rw [stairsLineFeature_p2_rings hbody] at hr
        simp at hr
    · rw [if_neg hst] at hf
      rw [List.mem_singleton] at hf
      subst hf
      simp only [polygonRings, List.mem_singleton] at hr
      subst hr
      exact boxRing_closed H x y w h
  | .star name x y w h =>
    rw [featuresForNode_p2, List.mem_singleton] at hf
    subst hf
    simp only [polygonRings, List.mem_singleton] at hr
    subst hr
    exact boxRing_closed H x y w h
  | .ellipse name x y w h arc rot =>
    rw [featuresForNode_p2, List.mem_singleton] at hf
    subst hf
    simp [polygonRings] at hr
  | .other name =>
    simp [featuresForNode_p2] at hf

/-- Ambient host capabilities (clock, randomness source).  The converter never
reads them; they are modelled explicitly so that independence of the output
from time and randomness is statable. -/
structure HostEnv where
  now : Int
  randomSeed : Nat
  deriving DecidableEq, Repr

/-- Whether a scene node is a frame node. -/
def isFrameNode {α : Type} : SceneNode α → Bool
  | .frame _ _ _ _ _ _ => true
  | _ => false

/-- Embedding of the `part_002` main: validate the selection, take the direct
child frames as floors, run the floor collector per floor, and post one
message.  `serialize` stands for `JSON.stringify(allFloorsData, null, 2)`,
whose exact float formatting is outside the embedding; `env` is the ambient
host state, which the code never reads. -/
def main_p2 {α : Type} [Zero α] [Add α] [Sub α] [Div α] [OfNat α 2]
    (serialize : List (String × List (Feature α)) → String)
    (selection : List (SceneNode α)) (_env : HostEnv) : List UIMessage :=
  match selection with
  | [SceneNode.frame name _ _ _ _ children] =>
    let target_frames := children.filter isFrameNode
    if target_frames.length = 0 then
      [.error "選択したフレーム内に、各フロアとなる子フレームを配置してください。"]
    else
      let allFloorsData := target_frames.map fun f =>
        match f with
        | .frame fname _ _ _ fheight fchildren => (fname, generate_p2 fheight fchildren)
        | _ => ("", [])
      if 0 < allFloorsData.length then
        [.exportAllFloors (serialize allFloorsData) name]
      else
        [.error "処理できるオブジェクトが見つかりませんでした。"]
  | _ => [.error "親となるフレームを1つだけ選択してください。"]

/-- C2 (amended): in the `part_002` engine, every ring of every emitted
Polygon feature — outer boundary and hole rings alike — has its first
coordinate equal to its last coordinate and has length at least 4; rings that
would be shorter are dropped together with their feature (outer) or silently
skipped (holes). -/
theorem generate_p2_ring_invariant :
    ∀ {α : Type} [Zero α] [Add α] [Sub α] [Div α] [OfNat α 2]
      (frame_height : α) (targetNodes : List (SceneNode α)) (f : Feature α),
      f ∈ generate_p2 frame_height targetNodes →
      ∀ r ∈ polygonRings f.geometry, r.head? = r.getLast? ∧ 4 ≤ r.length := by
  intro α iz ia is idiv ion H nodes f hf r hr
  unfold generate_p2 at hf
  by_cases hn : nodes.length = 0
  · rw [if_pos hn] at hf
    simp at hf
  · rw [if_neg hn] at hf
    obtain ⟨node, _, hfn⟩ := List.mem_flatMap.mp hf
    exact featuresForNode_p2_rings hfn hr

/-- A triangle with a triangular hole: vertices 0-2 form the outer boundary,
vertices 3-5 the hole; the region's first loop is the boundary, the second
loop the hole. -/
def holeNet : VectorNetwork ℤ :=
  { vertices := [⟨0, 0⟩, ⟨10, 0⟩, ⟨0, 10⟩, ⟨1, 1⟩, ⟨2, 1⟩, ⟨1, 2⟩],
    segments := [⟨0, 1⟩, ⟨1, 2⟩, ⟨2, 0⟩, ⟨3, 4⟩, ⟨4, 5⟩, ⟨5, 3⟩],
    regions := some [⟨[[0, 1, 2], [3, 4, 5]]⟩] }

/-- Floor contents for the concrete ring-invariant example. -/
def sampleFloorNodes : List (SceneNode ℤ) := [.vector "room" 1 2 holeNet]

/-- First feature generated for the concrete example floor. -/
def sampleFeature : Feature ℤ :=
  (generate_p2 20 sampleFloorNodes).headD ⟨.polygon [], []⟩

/-- Outer ring of the concrete example feature. -/
def sampleRing : List (ℤ × ℤ) :=
  (polygonRings sampleFeature.geometry).headD []

/-- Witness for C2: the invariant theorem applied to the concrete
triangle-with-hole floor. -/
theorem generate_p2_ring_invariant_witness :
    sampleRing.head? = sampleRing.getLast? ∧ 4 ≤ sampleRing.length :=
  generate_p2_ring_invariant 20 sampleFloorNodes sampleFeature (by decide)
    sampleRing (by decide)

/-! ## The `part_001` variant (hole rings are left unclosed) -/

/-- Embedding of the `part_001` hole handling: like `part_002`, every loop
after the first one of the first region is traced and skipped below 3
indices, but the resulting ring is appended WITHOUT re-adding its first
coordinate (the source has no `innerCoordinates.push(innerCoordinates[0])`). -/
def holes_p1 {α : Type} [Zero α] [Add α] [Sub α] [Div α] [OfNat α 2] (frame_height x y : α)
    (vertices : List (Vertex α)) (segments : List VectorSegment) :
    Option (List VectorRegion) → List (List (α × α))
  | none => []
  | some regions =>
    if regions.length ≠ 0 then
      ((regions.headD ⟨[]⟩).loops.drop 1).filterMap fun loop =>
        let now_segments := loop.map fun si => segments.getD si ⟨0, 0⟩
        let orderedVertexIndices := traceSingleLoop now_segments
        if orderedVertexIndices.length < 3 then none
        else
          let orderedVertices :=
            orderedVertexIndices.map fun i => vertices.getD i ⟨0, 0⟩
          some (orderedVertices.map fun v => normalizeVertex frame_height x y v)
    else []

/-- Embedding of `generate_feature_list_from_one_frame` of the `part_001`
variant, for one child node (VECTOR, FRAME and ELLIPSE are handled; stars are
processed outside this function in that variant). -/
def featuresForNode_p1 {α : Type} [Zero α] [Add α] [Sub α] [Div α] [OfNat α 2] (frame_height : α) :
    SceneNode α → List (Feature α)
  | .vector name x y net =>
    let orderedVertexIndices := traceSingleLoop net.segments
    if orderedVertexIndices.length < 3 then []
    else
      let orderedVertices := orderedVertexIndices.map fun i => net.vertices.getD i ⟨0, 0⟩
      let outer := orderedVertices.map fun v => normalizeVertex frame_height x y v
      [{ geometry := .polygon (closeRing (0, 0) outer ::
          holes_p1 frame_height x y net.vertices net.segments net.regions),
         properties := [("id", .str name)] }]
  | .frame name x y width height _children =>
    [{ geometry := .polygon [boxRing frame_height x y width height],
       properties := [("id", .str name)] }]
  | .ellipse name x y width height _ _ =>
    let centerX := x + width / 2
    let centerY := y + height / 2
    let radius := width / 2
    [{ geometry := .point (centerX, frame_height - centerY),
       properties := [("id", .str name), ("radius", .num radius)] }]
  | _ => []

/-- Embedding of the `part_001` floor collector, which also posts an error
message when the floor has no children. -/
def generate_p1 {α : Type} [Zero α] [Add α] [Sub α] [Div α] [OfNat α 2] (frame_height : α)
    (targetNodes : List (SceneNode α)) : List (Feature α) × List UIMessage :=
  if targetNodes.length = 0 then
    ([], [.error "選択されたフレーム内にベクターオブジェクトが見つかりませんでした。"])
  else
    (targetNodes.flatMap (featuresForNode_p1 frame_height), [])

/-- Counterexample for C2: in the `part_001` variant the hole ring of a donut
polygon is emitted with its 3 traced coordinates only — its first coordinate
differs from its last and its length is below 4 — refuting the claim for that
cited variant. -/
theorem part_001_hole_ring_unclosed :
    ((polygonRings ((generate_p1 20 sampleFloorNodes).1.headD
        ⟨.polygon [], []⟩).geometry).length = 2 ∧
      ((polygonRings ((generate_p1 20 sampleFloorNodes).1.headD
        ⟨.polygon [], []⟩).geometry).getD 1 []).length = 3 ∧
      ((polygonRings ((generate_p1 20 sampleFloorNodes).1.headD
        ⟨.polygon [], []⟩).geometry).getD 1 []).head? ≠
        ((polygonRings ((generate_p1 20 sampleFloorNodes).1.headD
        ⟨.polygon [], []⟩).geometry).getD 1 []).getLast?) := by
  decide

/-- C7: the Coordinate Normalizer returns exactly `(x, H − y)` for a vertex
whose absolute position is `(x, y)` under floor height `H`, and a vertex whose
absolute Y equals `H` is mapped to Y-coordinate `0`. -/
theorem normalizeVertex_spec :
    (∀ (H nodeX nodeY : ℚ) (v : Vertex ℚ) (x y : ℚ),
      nodeX + v.x = x → nodeY + v.y = y →
      normalizeVertex H nodeX nodeY v = (x, H - y)) ∧
    (∀ (H nodeX nodeY vx : ℚ),
      normalizeVertex H nodeX nodeY ⟨vx, H - nodeY⟩ = (nodeX + vx, 0)) := by
  constructor
  · intro H nx ny v x y hx hy
    rw [normalizeVertex, hx, hy]
  · intro H nx ny vx
    show (nx + vx, H - (ny + (H - ny))) = (nx + vx, 0)
    have hzero : H - (ny + (H - ny)) = 0 := by ring
    rw [hzero]

/-- Witness for C7: normalizing the vertex at local `(3, 4)` of a node at
`(1, 2)` under floor height `10` — absolute position `(4, 6)` — yields
`(4, 10 − 6)`. -/
theorem normalizeVertex_spec_witness :
    normalizeVertex (10 : ℚ) 1 2 ⟨3, 4⟩ = (4, 10 - 6) :=
  normalizeVertex_spec.1 10 1 2 ⟨3, 4⟩ 4 6 (by norm_num) (by norm_num)

/-- C8: the conversion is a pure function of the scene: the messages posted by
the `part_002` main (including the serialized payload) do not depend on the
ambient host state (clock, randomness), so two runs on the same scene produce
identical output. -/
theorem main_p2_deterministic :
    ∀ (serialize : List (String × List (Feature ℚ)) → String)
      (selection : List (SceneNode ℚ)) (env₁ env₂ : HostEnv),
      main_p2 serialize selection env₁ = main_p2 serialize selection env₂ :=
  fun _ _ _ _ => rfl

/-- C9: every ellipse node converted to a Point feature carries radius
`width / 2`; two ellipses differing only in height (or arc data or rotation)
get the same radius property. -/
theorem ellipse_radius_spec :
    ∀ (H : ℚ) (name : String) (x y w h₁ h₂ : ℚ) (a₁ a₂ : Option (ℚ × ℚ)) (r₁ r₂ : ℚ),
      getProp "radius" ((featuresForNode_p2 H (.ellipse name x y w h₁ a₁ r₁)).headD
        ⟨.polygon [], []⟩) = some (.num (w / 2)) ∧
      getProp "radius" ((featuresForNode_p2 H (.ellipse name x y w h₁ a₁ r₁)).headD
        ⟨.polygon [], []⟩) =
        getProp "radius" ((featuresForNode_p2 H (.ellipse name x y w h₂ a₂ r₂)).headD
        ⟨.polygon [], []⟩) := by
  intro H name x y w h₁ h₂ a₁ a₂ r₁ r₂
  exact ⟨rfl, rfl⟩

/-! ## The `part_004` variant: per-floor collection without name parsing -/

/-- Embedding of `generate_feature_list_from_one_frame` of the `part_004`
variant, for one child node: traced vector polygons with `part_001`-style
hole handling (holes unclosed) and plain frame boxes; every other node type
yields nothing. -/
def featuresForNode_p4 {α : Type} [Zero α] [Add α] [Sub α] [Div α] [OfNat α 2] (frame_height : α) :
    SceneNode α → List (Feature α)
  | .vector name x y net =>
    let orderedVertexIndices := traceSingleLoop net.segments
    if orderedVertexIndices.length < 3 then []
    else
      let orderedVertices := orderedVertexIndices.map fun i => net.vertices.getD i ⟨0, 0⟩
      let outer := orderedVertices.map fun v => normalizeVertex frame_height x y v
      [{ geometry := .polygon (closeRing (0, 0) outer ::
          holes_p1 frame_height x y net.vertices net.segments net.regions),
         properties := [("id", .str name)] }]
  | .frame name x y width height _children =>
    [{ geometry := .polygon [boxRing frame_height x y width height],
       properties := [("id", .str name)] }]
  | _ => []

/-- Embedding of the `part_004` floor collector: a floor with no children
posts an error message of its own, otherwise each child is converted. -/
def generate_p4 {α : Type} [Zero α] [Add α] [Sub α] [Div α] [OfNat α 2] (frame_height : α)
    (targetNodes : List (SceneNode α)) : List (Feature α) × List UIMessage :=
  if targetNodes.length = 0 then
    ([], [.error "選択されたフレーム内にベクターオブジェクトが見つかりませんでした。"])
  else
    (targetNodes.flatMap (featuresForNode_p4 frame_height), [])

/-- One entry of `allFloorsData` in the `part_004` main (the body of its
`target_frames.forEach`), paired with the messages its floor collector
posted.  The non-frame case is unreachable after the frame filter. -/
def floorEntry_p4 {α : Type} [Zero α] [Add α] [Sub α] [Div α] [OfNat α 2] :
    SceneNode α → (String × List (Feature α)) × List UIMessage
  | .frame fname _ _ _ fheight fchildren =>
    ((fname, (generate_p4 fheight fchildren).1), (generate_p4 fheight fchildren).2)
  | _ => (("", []), [])

/-- Embedding of the `part_004` main: validate the selection, take the direct
child frames as floors, build `allFloorsData`, and post the final message
(export of all floors, or an error when there is no floor).  The
no-sub-frame error is posted without stopping the run.  `serialize` stands
for `JSON.stringify(allFloorsData, null, 2)`. -/
def main_p4 {α : Type} [Zero α] [Add α] [Sub α] [Div α] [OfNat α 2]
    (serialize : List (String × List (Feature α)) → String)
    (selection : List (SceneNode α)) : List UIMessage :=
  match selection with
  | [SceneNode.frame _ _ _ _ _ children] =>
    let target_frames := children.filter isFrameNode
    let preMsgs :=
      if target_frames.length = 0 then
        [UIMessage.error "選択したフレーム内にフレームが存在するようにしてください"]
      else []
    let results := target_frames.map floorEntry_p4
    let allFloorsData := results.map Prod.fst
    let genMsgs := (results.map Prod.snd).flatten
    let finalMsg :=
      if 0 < allFloorsData.length then
        [UIMessage.exportAllFloors (serialize allFloorsData) ""]
      else
        [UIMessage.error "処理できるオブジェクトが見つかりませんでした。"]
    preMsgs ++ genMsgs ++ finalMsg
  | _ => [UIMessage.error "フレームを1つだけ選択してください。"]

/-- Whether a UI message is an error payload. -/
def isErrorMsg : UIMessage → Bool
  | .error _ => true
  | _ => false

/-! ## The `code.ts` variant: name-parsing engine and its main -/

/-- Embedding of the per-vector conversion of the `code.ts` variant: the
node's name must split (on commas, trimmed) into exactly 3 parts, the third
part must parse with `parseInt`; otherwise the node yields no feature.  The
vertices are used in stored order (no loop tracing in this variant). -/
def codets_featureOfVector {α : Type} [Zero α] [Add α] [Sub α] [IntCast α]
    (frame_height : α) : SceneNode α → Option (Feature α)
  | .vector name x y net =>
    let nameParts := (jsSplitComma name).map jsTrim
    if nameParts.length ≠ 3 then none
    else
      match parseIntJS (nameParts.getD 2 "") with
      | none => none
      | some floor =>
        let coordinates := net.vertices.map fun v => normalizeVertex frame_height x y v
        some { geometry := .polygon [closeRing (0, 0) coordinates],
               properties := [("name", .str (nameParts.getD 0 "")),
                 ("category", .str (nameParts.getD 1 "")),
                 ("floor", .num ((floor : Int) : α)),
                 ("figmaNodeName", .str name)] }
  | _ => none

/-- Embedding of `generate_feature_list_from_one_frame` of the `code.ts`
variant: all vector descendants of the frame are converted; a frame with no
vector descendant posts an error message of its own. -/
def generate_codets {α : Type} [Zero α] [Add α] [Sub α] [IntCast α] :
    SceneNode α → List (Feature α) × List UIMessage
  | .frame _ _ _ _ height children =>
    let vectorNodes := vectorDescendantsList children
    if vectorNodes.length = 0 then
      ([], [.error "選択されたフレーム内にベクターオブジェクトが見つかりませんでした。"])
    else
      (vectorNodes.filterMap (codets_featureOfVector height), [])
  | _ => ([], [])

/-- Embedding of the `code.ts` main: validate the selection, search ALL frame
descendants of the selected frame, run the generator per frame, and post the
merged feature collection (or an error).  Note that the no-sub-frame error is
posted without stopping the run. -/
def main_codets {α : Type} [Zero α] [Add α] [Sub α] [IntCast α]
    (serialize : List (Feature α) → String) (selection : List (SceneNode α)) :
    List UIMessage :=
  match selection with
  | [SceneNode.frame name _ _ _ _ children] =>
    let target_frames := frameDescendantsList children
    let preMsgs :=
      if target_frames.length = 0 then
        [UIMessage.error "選択したフレーム内にフレームが存在するようにしてください"]
      else []
    let results := target_frames.map generate_codets
    let features := (results.map Prod.fst).flatten
    let genMsgs := (results.map Prod.snd).flatten
    let finalMsg :=
      if 0 < features.length then
        [UIMessage.exportGeojson (serialize features) (name ++ ".geojson")]
      else
        [UIMessage.error "処理できる形式のベクターオブジェクトがありませんでした。"]
    preMsgs ++ genMsgs ++ finalMsg
  | _ => [UIMessage.error "フレームを1つだけ選択してください。"]

theorem countSuccess_append (l₁ l₂ : List UIMessage) :
    countSuccess (l₁ ++ l₂) = countSuccess l₁ + countSuccess l₂ := by
  simp [countSuccess, List.filter_append]

theorem countSuccess_flatten_zero (ls : List (List UIMessage))
    (h : ∀ l ∈ ls, countSuccess l = 0) : countSuccess ls.flatten = 0 := by
  induction ls with
  | nil => rfl
  | cons a t ih =>
    rw [List.flatten_cons, countSuccess_append, h a (by simp),
      ih fun l hl => h l (List.mem_cons_of_mem _ hl)]

theorem generate_codets_msgs_no_success {α : Type} [Zero α] [Add α] [Sub α] [IntCast α]
    (node : SceneNode α) : countSuccess (generate_codets node).2 = 0 := by
  match node with
  | .frame n x y w h children =>
    simp only [generate_codets]
    by_cases hc : (vectorDescendantsList children).length = 0
    · rw [if_pos hc]; rfl
    · rw [if_neg hc]; rfl
  | .vector .. => rfl
  | .star .. => rfl
  | .ellipse .. => rfl
  | .other _ => rfl

theorem countSuccess_if_error (c : Prop) [Decidable c] (m : String) :
    countSuccess (if c then [UIMessage.error m] else []) = 0 := by
  split <;> rfl

theorem countSuccess_final_le (c : Prop) [Decidable c] (d f m : String) :
    countSuccess (if c then [UIMessage.exportGeojson d f] else [UIMessage.error m]) ≤ 1 := by
  split
  · exact Nat.le_refl 1
  · exact Nat.zero_le 1

theorem length_if_one {β : Type} (c : Prop) [Decidable c] (a b : β) :
    (if c then [a] else [b]).length = 1 := by
  split <;> rfl

theorem countSuccess_le_length (l : List UIMessage) : countSuccess l ≤ l.length :=
  List.length_filter_le _ l

theorem countSuccess_eq_zero_of_all_error {l : List UIMessage}
    (h : l.all isErrorMsg = true) : countSuccess l = 0 := by
  induction l with
  | nil => rfl
  | cons m t ih =>
    rw [List.all_cons, Bool.and_eq_true] at h
    cases m with
    | error s =>
      calc countSuccess (UIMessage.error s :: t) = countSuccess t := rfl
        _ = 0 := ih h.2
    | exportGeojson d f => exact Bool.noConfusion h.1
    | exportAllFloors d f => exact Bool.noConfusion h.1

theorem all_error_if (c : Prop) [Decidable c] (m : String) :
    (if c then [UIMessage.error m] else []).all isErrorMsg = true := by
  split <;> rfl

theorem isErrorMsg_of_mem_generate_codets {α : Type} [Zero α] [Add α] [Sub α] [IntCast α]
    (node : SceneNode α) {m : UIMessage} (hm : m ∈ (generate_codets node).2) :
    isErrorMsg m = true := by
  match node with
  | .frame n x y w h children =>
    simp only [generate_codets] at hm
    by_cases hc : (vectorDescendantsList children).length = 0
    · rw [if_pos hc] at hm
      rw [List.mem_singleton.mp hm]; rfl
    · rw [if_neg hc] at hm
      exact absurd hm (List.not_mem_nil m)
  | .vector .. => exact absurd hm (List.not_mem_nil m)
  | .star .. => exact absurd hm (List.not_mem_nil m)
  | .ellipse .. => exact absurd hm (List.not_mem_nil m)
  | .other _ => exact absurd hm (List.not_mem_nil m)

theorem isErrorMsg_of_mem_generate_p4 {α : Type} [Zero α] [Add α] [Sub α] [Div α] [OfNat α 2]
    (frame_height : α) (targetNodes : List (SceneNode α)) {m : UIMessage}
    (hm : m ∈ (generate_p4 frame_height targetNodes).2) : isErrorMsg m = true := by
  unfold generate_p4 at hm
  by_cases hc : targetNodes.length = 0
  · rw [if_pos hc] at hm
    rw [List.mem_singleton.mp hm]; rfl
  · rw [if_neg hc] at hm
    exact absurd hm (List.not_mem_nil m)

theorem isErrorMsg_of_mem_floorEntry_p4 {α : Type} [Zero α] [Add α] [Sub α] [Div α] [OfNat α 2]
    (node : SceneNode α) {m : UIMessage} (hm : m ∈ (floorEntry_p4 node).2) :
    isErrorMsg m = true := by
  match node with
  | .frame fname fx fy fw fh fchildren => exact isErrorMsg_of_mem_generate_p4 fh fchildren hm
  | .vector .. => exact absurd hm (List.not_mem_nil m)
  | .star .. => exact absurd hm (List.not_mem_nil m)
  | .ellipse .. => exact absurd hm (List.not_mem_nil m)
  | .other _ => exact absurd hm (List.not_mem_nil m)

theorem all_error_flatten_of {β : Type} (f : β → List UIMessage) (l : List β)
    (hf : ∀ b ∈ l, ∀ m ∈ f b, isErrorMsg m = true) :
    ((l.map f).flatten).all isErrorMsg = true := by
  rw [List.all_eq_true]
  intro m hm
  obtain ⟨s, hs, hms⟩ := List.mem_flatten.mp hm
  obtain ⟨b, hb, hbs⟩ := List.mem_map.mp hs
  exact hf b hb m (hbs ▸ hms)

/-- Common message shape of the `code.ts` and `part_004` mains: error
prefixes followed by exactly one final message. -/
theorem message_shape (pre gen fin : List UIMessage)
    (hpre : pre.all isErrorMsg = true) (hgen : gen.all isErrorMsg = true)
    (hfin : fin.length = 1) :
    1 ≤ (pre ++ gen ++ fin).length ∧
      (pre ++ gen ++ fin).dropLast.all isErrorMsg = true ∧
      countSuccess (pre ++ gen ++ fin) ≤ 1 := by
  match fin, hfin with
  | [x], _ =>
    refine ⟨?_, ?_, ?_⟩
    · rw [List.length_append, List.length_append, List.length_singleton]
      omega
    · rw [List.dropLast_concat, List.all_append, hpre, hgen]
      rfl
    · rw [countSuccess_append, countSuccess_append,
        countSuccess_eq_zero_of_all_error hpre, countSuccess_eq_zero_of_all_error hgen]
      have hx : countSuccess [x] ≤ 1 := countSuccess_le_length [x]
      omega

/-- C1 (amended): in the `code.ts` main and in the `part_004` main alike,
every run posts at least one message, every message except the last is an
error payload, and hence at most one success payload is ever posted — and
only as the final message, which is the run's result under the sink's
last-wins semantics.  The original "never two messages per invocation"
guarantee does not hold (see the counterexample). -/
theorem main_codets_message_discipline :
    ∀ {α : Type} [Zero α] [Add α] [Sub α] [Div α] [OfNat α 2] [IntCast α]
      (serC : List (Feature α) → String)
      (serP : List (String × List (Feature α)) → String)
      (selection : List (SceneNode α)),
      (1 ≤ (main_codets serC selection).length ∧
        (main_codets serC selection).dropLast.all isErrorMsg = true ∧
        countSuccess (main_codets serC selection) ≤ 1) ∧
      (1 ≤ (main_p4 serP selection).length ∧
        (main_p4 serP selection).dropLast.all isErrorMsg = true ∧
        countSuccess (main_p4 serP selection) ≤ 1) := by
  intro α iz ia is idiv ion ic serC serP sel
  constructor
  · match sel with
    | [] => exact ⟨Nat.le_refl 1, rfl, Nat.zero_le 1⟩
    | [SceneNode.vector ..] => exact ⟨Nat.le_refl 1, rfl, Nat.zero_le 1⟩
    | [SceneNode.star ..] => exact ⟨Nat.le_refl 1, rfl, Nat.zero_le 1⟩
    | [SceneNode.ellipse ..] => exact ⟨Nat.le_refl 1, rfl, Nat.zero_le 1⟩
    | [SceneNode.other _] => exact ⟨Nat.le_refl 1, rfl, Nat.zero_le 1⟩
    | SceneNode.vector .. :: _ :: _ => exact ⟨Nat.le_refl 1, rfl, Nat.zero_le 1⟩
    | SceneNode.frame .. :: _ :: _ => exact ⟨Nat.le_refl 1, rfl, Nat.zero_le 1⟩
    | SceneNode.star .. :: _ :: _ => exact ⟨Nat.le_refl 1, rfl, Nat.zero_le 1⟩
    | SceneNode.ellipse .. :: _ :: _ => exact ⟨Nat.le_refl 1, rfl, Nat.zero_le 1⟩
    | SceneNode.other _ :: _ :: _ => exact ⟨Nat.le_refl 1, rfl, Nat.zero_le 1⟩
    | [SceneNode.frame name x y w h children] =>
      simp only [main_codets]
      apply message_shape
      · exact all_error_if _ _
      · apply all_error_flatten_of
        intro r hr m hm
        obtain ⟨nd, hnd, hrnd⟩ := List.mem_map.mp hr
        rw [← hrnd] at hm
        exact isErrorMsg_of_mem_generate_codets nd hm
      · exact length_if_one _ _ _
  · match sel with
    | [] => exact ⟨Nat.le_refl 1, rfl, Nat.zero_le 1⟩
    | [SceneNode.vector ..] => exact ⟨Nat.le_refl 1, rfl, Nat.zero_le 1⟩
    | [SceneNode.star ..] => exact ⟨Nat.le_refl 1, rfl, Nat.zero_le 1⟩
    | [SceneNode.ellipse ..] => exact ⟨Nat.le_refl 1, rfl, Nat.zero_le 1⟩
    | [SceneNode.other _] => exact ⟨Nat.le_refl 1, rfl, Nat.zero_le 1⟩
    | SceneNode.vector .. :: _ :: _ => exact ⟨Nat.le_refl 1, rfl, Nat.zero_le 1⟩
    | SceneNode.frame .. :: _ :: _ => exact ⟨Nat.le_refl 1, rfl, Nat.zero_le 1⟩
    | SceneNode.star .. :: _ :: _ => exact ⟨Nat.le_refl 1, rfl, Nat.zero_le 1⟩
    | SceneNode.ellipse .. :: _ :: _ => exact ⟨Nat.le_refl 1, rfl, Nat.zero_le 1⟩
    | SceneNode.other _ :: _ :: _ => exact ⟨Nat.le_refl 1, rfl, Nat.zero_le 1⟩
    | [SceneNode.frame name x y w h children] =>
      simp only [main_p4]
      apply message_shape
      · exact all_error_if _ _
      · apply all_error_flatten_of
        intro r hr m hm
        obtain ⟨nd, hnd, hrnd⟩ := List.mem_map.mp hr
        rw [← hrnd] at hm
        exact isErrorMsg_of_mem_floorEntry_p4 nd hm
      · exact length_if_one _ _ _

/-- Counterexample for C1: a run of the `code.ts` main on a single selected
frame with no sub-frames posts TWO messages — the missing-sub-frame error and
then the final no-features error — refuting "never two messages in the same
invocation". -/
theorem main_codets_two_messages :
    main_codets (fun _ : List (Feature ℤ) => "") [.frame "A" 0 0 100 100 []] =
      [.error "選択したフレーム内にフレームが存在するようにしてください",
       .error "処理できる形式のベクターオブジェクトがありませんでした。"] := rfl

/-- C5 (amended): in the `code.ts` variant a vector node yields a feature
exactly when its name splits into 3 comma-separated parts and `parseInt`
accepts the trimmed floor segment (an optional sign followed by at least one
digit; trailing garbage is ignored); every other vector node contributes no
feature, and no per-node message is ever posted (a frame posts an error only
when it contains no vector at all). -/
theorem codets_emission_iff :
    (∀ {α : Type} [Zero α] [Add α] [Sub α] [IntCast α]
      (H : α) (name : String) (x y : α) (net : VectorNetwork α),
      (codets_featureOfVector H (.vector name x y net)).isSome = true ↔
        ((jsSplitComma name).map jsTrim).length = 3 ∧
          parseIntJS (((jsSplitComma name).map jsTrim).getD 2 "") ≠ none) ∧
    (∀ {α : Type} [Zero α] [Add α] [Sub α] [IntCast α] (fname : String) (x y w h : α)
      (children : List (SceneNode α)),
      (vectorDescendantsList children).length ≠ 0 →
      (generate_codets (SceneNode.frame fname x y w h children)).2 = []) := by
  constructor
  · intro α iz ia is ic H name x y net
    simp only [codets_featureOfVector]
    by_cases h3 : ((jsSplitComma name).map jsTrim).length ≠ 3
    · rw [if_pos h3]
      constructor
      · intro hh
        exact absurd hh (by simp)
      · intro hcon
        exact absurd hcon.1 h3
    · rw [if_neg h3]
      rw [Decidable.not_not] at h3
      cases hp : parseIntJS (((jsSplitComma name).map jsTrim).getD 2 "") with
      | none => simp [hp, h3]
      | some fl => simp [hp, h3]
  · intro α iz ia is ic fname x y w h children hne
    simp only [generate_codets]
    rw [if_neg hne]

/-- Witness for C5: a frame holding one (unparseable-name) vector posts no
message: the skip is silent. -/
theorem codets_emission_iff_witness :
    (generate_codets (SceneNode.frame "1F" (0 : ℤ) 0 50 50
      [.vector "badname" 0 0 ⟨[], [], none⟩])).2 = [] :=
  codets_emission_iff.2 "1F" 0 0 50 50 [.vector "badname" 0 0 ⟨[], [], none⟩] (by decide)

/-- Counterexample for C5: the floor segment `"3x"` is not an integer
numeral, yet the node named `"a,b,3x"` is converted to a feature (because
`parseInt` reads the `3` prefix), refuting "skipped whenever the floor
segment is not an integer". -/
theorem codets_nonint_floor_emitted :
    decimalIntString "3x" = false ∧
      (codets_featureOfVector (0 : ℤ)
        (.vector "a,b,3x" 0 0 ⟨[], [], none⟩)).isSome = true := by
  decide

/-! ## The `part_003` variant: stairs shapes and arc-tessellated ellipses

This variant evaluates sine/cosine, so it is embedded over `ℝ`. -/

/-- Auxiliary stairs features of the `part_003` variant for the vector
descendant at 0-based `index`: a 2-vertex/1-segment vector yields a
LineString (id suffix `-line-NNN`), otherwise a vector with at least 3
vertices whose trace yields at least 3 indices yields a Polygon (suffix
`-shape-NNN`); anything else yields nothing.  `NNN` is always the zero-padded
`index + 1`. -/
noncomputable def stairsAuxFeatures_p3 (frame_height : ℝ) (facilityId : String)
    (frameX frameY : ℝ) (index : Nat) : SceneNode ℝ → List (Feature ℝ)
  | .vector _ lx ly net =>
    if net.vertices.length = 2 ∧ net.segments.length = 1 then
      let v1 := net.vertices.getD 0 ⟨0, 0⟩
      let v2 := net.vertices.getD 1 ⟨0, 0⟩
      let lineCoordinates :=
        [(frameX + lx + v1.x, frame_height - (frameY + ly + v1.y)),
         (frameX + lx + v2.x, frame_height - (frameY + ly + v2.y))]
      let lineIndex := padStart3 (toString (index + 1))
      [{ geometry := .lineString lineCoordinates,
         properties := [("id", .str (facilityId ++ "-line-" ++ lineIndex)),
           ("parentId", .str facilityId),
           ("category", .str "stairs-hatch")] }]
    else if 3 ≤ net.vertices.length then
      let orderedVertexIndices := traceSingleLoop net.segments
      if 3 ≤ orderedVertexIndices.length then
        let orderedVertices := orderedVertexIndices.map fun i => net.vertices.getD i ⟨0, 0⟩
        let polyCoordinates := orderedVertices.map fun v =>
          (frameX + lx + v.x, frame_height - (frameY + ly + v.y))
        let shapeIndex := padStart3 (toString (index + 1))
        [{ geometry := .polygon [closeRing (0, 0) polyCoordinates],
           properties := [("id", .str (facilityId ++ "-shape-" ++ shapeIndex)),
             ("parentId", .str facilityId),
             ("category", .str "stairs-arrow-head")] }]
      else []
    else []
  | _ => []

/-- The `innerLines.forEach((lineVector, index) => ...)` loop of the stairs
branch: every vector descendant consumes one index, whether or not it yields
a feature. -/
noncomputable def stairsAuxList_p3 (frame_height : ℝ) (facilityId : String)
    (frameX frameY : ℝ) : Nat → List (SceneNode ℝ) → List (Feature ℝ)
  | _, [] => []
  | index, v :: rest =>
    stairsAuxFeatures_p3 frame_height facilityId frameX frameY index v ++
      stairsAuxList_p3 frame_height facilityId frameX frameY (index + 1) rest

/-- Tessellated arc points of the `part_003` ellipse branch: 65 parameter
steps across the sweep; the node's rotation (in radians) is added to the
parameter before evaluating sine/cosine. -/
noncomputable def arcPoints (frame_height centerX centerY radiusX radiusY
    startAngle sweep rotationRad : ℝ) : List (ℝ × ℝ) :=
  (List.range 65).map fun i =>
    let currentLocalAngle := startAngle + sweep * ((i : ℝ) / 64)
    let finalAngle := currentLocalAngle + rotationRad
    (centerX + radiusX * Real.cos finalAngle,
     frame_height - (centerY + radiusY * Real.sin finalAngle))

/-- Point list of the ellipse polygon BEFORE the final first==last check: the
arc points, followed by the ellipse center exactly when the sweep is not a
full turn within the `0.01` epsilon (`!isFullCircle`). -/
noncomputable def ellipsePreClose (frame_height centerX centerY radiusX radiusY
    startAngle sweep rotationRad : ℝ) : List (ℝ × ℝ) :=
  arcPoints frame_height centerX centerY radiusX radiusY startAngle sweep rotationRad ++
    (if |sweep - Real.pi * 2| < 1 / 100 then []
     else [(centerX, frame_height - centerY)])

open scoped Classical in
/-- Final closing check of the ellipse polygon: when the first and last
points differ, the first point is pushed again. -/
noncomputable def jsCloseIfOpen (l : List (ℝ × ℝ)) : List (ℝ × ℝ) :=
  if 0 < l.length then
    if l.headD (0, 0) = l.getLastD (0, 0) then l else l ++ [l.headD (0, 0)]
  else l

/-- Embedding of `generate_feature_list_from_one_frame` of the `part_003`
variant, for one child node of the floor frame.  The vector branch matches
`part_002` (`holes_p2` is the shared donut handling); the stairs branch also
emits `-shape-NNN` polygons; ellipses become tessellated polygons. -/
noncomputable def featuresForNode_p3 (frame_height : ℝ) : SceneNode ℝ → List (Feature ℝ)
  | .vector name x y net =>
    let orderedVertexIndices := traceSingleLoop net.segments
    if 3 ≤ orderedVertexIndices.length then
      let orderedVertices := orderedVertexIndices.map fun i => net.vertices.getD i ⟨0, 0⟩
      let outer := orderedVertices.map fun v => normalizeVertex frame_height x y v
      [{ geometry := .polygon (closeRing (0, 0) outer ::
          holes_p2 frame_height x y net.vertices net.segments net.regions),
         properties := [("id", .str name)] }]
    else []
  | .frame name x y width height children =>
    if jsIncludes (jsToLower name) "stairs" then
      let innerLines := vectorDescendantsList children
      { geometry := Geometry.polygon [boxRing frame_height x y width height],
        properties := [("id", .str name)] } ::
        stairsAuxList_p3 frame_height name x y 0 innerLines
    else
      [{ geometry := .polygon [boxRing frame_height x y width height],
         properties := [("id", .str name)] }]
  | .star name x y width height =>
    [{ geometry := .polygon [boxRing frame_height x y width height],
       properties := [("id", .str name), ("shapeType", .str "STAR")] }]
  | .ellipse name x y width height arcData rotation =>
    let radiusX := width / 2
    let radiusY := height / 2
    let centerX := x + width / 2
    let centerY := y + height / 2
    let startAngle := match arcData with | some a => a.1 | none => 0
    let endAngle := match arcData with | some a => a.2 | none => Real.pi * 2
    let sweep := endAngle - startAngle
    let rotationRad := rotation * (Real.pi / 180)
    let polygonCoords := jsCloseIfOpen (ellipsePreClose frame_height centerX centerY
      radiusX radiusY startAngle sweep rotationRad)
    [{ geometry := .polygon [polygonCoords],
       properties := [("id", .str name), ("shapeType", .str "ELLIPSE_POLYGON"),
         ("rotation", .num rotation)] }]
  | .other _ => []

/-- Embedding of the `part_003` floor collector. -/
noncomputable def generate_p3 (frame_height : ℝ) (targetNodes : List (SceneNode ℝ)) :
    List (Feature ℝ) :=
  if targetNodes.length = 0 then []
  else targetNodes.flatMap (featuresForNode_p3 frame_height)

/-- C6: the Arc Tessellator appends the ellipse center as a vertex iff the
sweep is not a full turn within the `0.01` epsilon; a full-turn sweep
(`2π`) never appends the center, a half-turn sweep (`π`) always does. -/
theorem ellipse_center_append :
    ∀ (H cx cy rx ry start rot sweep : ℝ),
      (|sweep - Real.pi * 2| < 1 / 100 →
        ellipsePreClose H cx cy rx ry start sweep rot =
          arcPoints H cx cy rx ry start sweep rot) ∧
      (¬|sweep - Real.pi * 2| < 1 / 100 →
        ellipsePreClose H cx cy rx ry start sweep rot =
          arcPoints H cx cy rx ry start sweep rot ++ [(cx, H - cy)]) ∧
      (sweep = Real.pi * 2 →
        ellipsePreClose H cx cy rx ry start sweep rot =
          arcPoints H cx cy rx ry start sweep rot) ∧
      (sweep = Real.pi →
        ellipsePreClose H cx cy rx ry start sweep rot =
          arcPoints H cx cy rx ry start sweep rot ++ [(cx, H - cy)]) := by
  intro H cx cy rx ry start rot sweep
  refine ⟨?_, ?_, ?_, ?_⟩
  · intro hfull
    rw [ellipsePreClose, if_pos hfull, List.append_nil]
  · intro hfull
    rw [ellipsePreClose, if_neg hfull]
  · intro hsweep
    rw [ellipsePreClose, if_pos (by rw [hsweep]; norm_num), List.append_nil]
  · intro hsweep
    rw [ellipsePreClose, if_neg ?_]
    rw [hsweep]
    have habs : |Real.pi - Real.pi * 2| = Real.pi := by
      rw [abs_of_nonpos (by linarith [Real.pi_pos])]
      ring
    rw [habs]
    have := Real.pi_gt_three
    intro hcon
    linarith

/-- Witness for C6: with the default full-circle arc (sweep `2π`) the
pre-closing point list is exactly the 65 arc points — no center appended. -/
theorem ellipse_center_append_witness :
    ellipsePreClose 0 0 0 1 1 0 (Real.pi * 2) 0 =
      arcPoints 0 0 0 1 1 0 (Real.pi * 2) 0 :=
  (ellipse_center_append 0 0 0 1 1 0 0 (Real.pi * 2)).2.2.1 rfl

/-- C4 (amended): a stairs-named container with one 2-vertex/1-edge vector
descendant followed by one 4-vertex simple-cycle vector descendant emits
exactly three features — the bounding-box Polygon (carrying only the
container's id, no `parentId`), a LineString `…-line-001` and a shape Polygon
`…-shape-002`, the latter two carrying `parentId` equal to the container's
identifier. -/
theorem stairs_three_features :
    ∀ (H : ℝ) (name lname sname : String) (x y w h lx ly sx sy : ℝ)
      (lnet snet : VectorNetwork ℝ) (vs : List Nat),
      jsIncludes (jsToLower name) "stairs" = true →
      lnet.vertices.length = 2 → lnet.segments.length = 1 →
      snet.vertices.length = 4 → IsSimpleCycle vs snet.segments → vs.length = 4 →
      ((featuresForNode_p3 H (.frame name x y w h
          [.vector lname lx ly lnet, .vector sname sx sy snet])).map (getProp "id") =
        [some (.str name), some (.str (name ++ "-line-001")),
          some (.str (name ++ "-shape-002"))] ∧
       (featuresForNode_p3 H (.frame name x y w h
          [.vector lname lx ly lnet, .vector sname sx sy snet])).map (getProp "parentId") =
        [none, some (.str name), some (.str name)]) := by
  intro H name lname sname x y w h lx ly sx sy lnet snet vs hst hl2 hl1 hs4 hcyc hvs4
  have htr : (traceSingleLoop snet.segments).length = 4 := by
    rw [(traceSingleLoop_perm hcyc).length_eq, hvs4]
  have hfeat : featuresForNode_p3 H (.frame name x y w h
      [.vector lname lx ly lnet, .vector sname sx sy snet]) =
      { geometry := Geometry.polygon [boxRing H x y w h],
        properties := [("id", .str name)] } ::
      (stairsAuxFeatures_p3 H name x y 0 (.vector lname lx ly lnet) ++
        stairsAuxFeatures_p3 H name x y (0 + 1) (.vector sname sx sy snet)) := by
    simp only [featuresForNode_p3]
    rw [if_pos hst]
    simp only [vectorDescendantsList, vectorDescendants, List.nil_append,
      List.cons_append, List.append_nil, stairsAuxList_p3]
  have hline001 : name ++ "-line-" ++ padStart3 (toString (0 + 1)) = name ++ "-line-001" := by
    rw [String.append_assoc]
    rfl
  have hshape002 : name ++ "-shape-" ++ padStart3 (toString (0 + 1 + 1)) =
      name ++ "-shape-002" := by
    rw [String.append_assoc]
    rfl
  have hid0 : (stairsAuxFeatures_p3 H name x y 0 (.vector lname lx ly lnet)).map
      (getProp "id") = [some (.str (name ++ "-line-001"))] := by
    simp only [stairsAuxFeatures_p3]
    rw [if_pos ⟨hl2, hl1⟩, ← hline001]
    rfl
  have hpid0 : (stairsAuxFeatures_p3 H name x y 0 (.vector lname lx ly lnet)).map
      (getProp "parentId") = [some (.str name)] := by
    simp only [stairsAuxFeatures_p3]
    rw [if_pos ⟨hl2, hl1⟩]
    rfl
  have hnotline : ¬(snet.vertices.length = 2 ∧ snet.segments.length = 1) := by
    rw [hs4]
    simp
  have hge3 : 3 ≤ snet.vertices.length := by omega
  have htr3 : 3 ≤ (traceSingleLoop snet.segments).length := by omega
  have hid1 : (stairsAuxFeatures_p3 H name x y (0 + 1)
      (.vector sname sx sy snet)).map (getProp "id") =
      [some (.str (name ++ "-shape-002"))] := by
    simp only [stairsAuxFeatures_p3]
    rw [if_neg hnotline, if_pos hge3, if_pos htr3, ← hshape002]
    rfl
  have hpid1 : (stairsAuxFeatures_p3 H name x y (0 + 1)
      (.vector sname sx sy snet)).map (getProp "parentId") = [some (.str name)] := by
    simp only [stairsAuxFeatures_p3]
    rw [if_neg hnotline, if_pos hge3, if_pos htr3]
    rfl
  constructor
  · rw [hfeat, List.map_cons, List.map_append, hid0, hid1]
    rfl
  · rw [hfeat, List.map_cons, List.map_append, hpid0, hpid1]
    rfl

/-- A 2-vertex, 1-segment hatch line for concrete stairs examples. -/
def stairsLineNetC : VectorNetwork ℝ :=
  { vertices := [⟨0, 0⟩, ⟨1, 1⟩], segments := [⟨0, 1⟩], regions := none }

/-- A 4-vertex closed square for concrete stairs examples. -/
def stairsShapeNetC : VectorNetwork ℝ :=
  { vertices := [⟨0, 0⟩, ⟨1, 0⟩, ⟨1, 1⟩, ⟨0, 1⟩],
    segments := [⟨0, 1⟩, ⟨1, 2⟩, ⟨2, 3⟩, ⟨3, 0⟩], regions := none }

/-- A concrete stairs container with one hatch line and one closed square. -/
def stairsFrameC : SceneNode ℝ :=
  .frame "st-stairs" 0 0 4 4
    [.vector "l" 0 0 stairsLineNetC, .vector "s" 0 0 stairsShapeNetC]

/-- Counterexample for C4: on a concrete stairs container the box Polygon
carries NO `parentId` property (only the two auxiliary features do), refuting
"each carrying a parentId property equal to the container's identifier". -/
theorem stairs_box_lacks_parentId :
    (featuresForNode_p3 10 stairsFrameC).map (getProp "parentId") =
      [none, some (.str "st-stairs"), some (.str "st-stairs")] := rfl

/-- Witness for C4: the amended theorem applied to the concrete stairs
container (line child first, square child second). -/
theorem stairs_three_features_witness :
    (featuresForNode_p3 10 stairsFrameC).map (getProp "id") =
      [some (.str "st-stairs"), some (.str ("st-stairs" ++ "-line-001")),
        some (.str ("st-stairs" ++ "-shape-002"))] :=
  (stairs_three_features 10 "st-stairs" "l" "s" 0 0 4 4 0 0 0 0
    stairsLineNetC stairsShapeNetC [0, 1, 2, 3] (by decide) (by decide) (by decide)
    (by decide) (by decide) (by decide)).1

/-- A 3-vertex vector with a single segment: traced to only 2 indices, it
yields no stairs feature but still consumes a sequence number. -/
def gapBadNet : VectorNetwork ℝ :=
  { vertices := [⟨0, 0⟩, ⟨1, 0⟩, ⟨0, 1⟩], segments := [⟨0, 1⟩], regions := none }

/-- A 3-vertex closed triangle. -/
def gapGoodNet : VectorNetwork ℝ :=
  { vertices := [⟨0, 0⟩, ⟨1, 0⟩, ⟨0, 1⟩],
    segments := [⟨0, 1⟩, ⟨1, 2⟩, ⟨2, 0⟩], regions := none }

/-- A stairs container whose first vector descendant yields no feature. -/
def gapStairsFrame : SceneNode ℝ :=
  .frame "g-stairs" 0 0 5 5 [.vector "b" 0 0 gapBadNet, .vector "t" 0 0 gapGoodNet]

/-- C10: inside a stairs container the zero-padded numeric suffix of every
auxiliary feature id equals the 1-based position (`index + 1`) of the
originating vector descendant among all vector descendants found: a
2-vertex/1-segment descendant at index `i` yields exactly `…-line-` with the
padded `i + 1`, a traceable shape descendant yields `…-shape-` with the
padded `i + 1`, and any other descendant yields nothing while still
consuming its index — concretely, a stairs frame whose first descendant is
skipped emits its only shape with suffix `002`. -/
theorem stairs_sequence_numbers :
    (∀ (H : ℝ) (fid : String) (fx fy : ℝ) (i : Nat) (nm : String) (lx ly : ℝ)
      (net : VectorNetwork ℝ),
      (net.vertices.length = 2 ∧ net.segments.length = 1 →
        (stairsAuxFeatures_p3 H fid fx fy i (.vector nm lx ly net)).map (getProp "id") =
          [some (.str (fid ++ "-line-" ++ padStart3 (toString (i + 1))))]) ∧
      (¬(net.vertices.length = 2 ∧ net.segments.length = 1) →
        3 ≤ net.vertices.length → 3 ≤ (traceSingleLoop net.segments).length →
        (stairsAuxFeatures_p3 H fid fx fy i (.vector nm lx ly net)).map (getProp "id") =
          [some (.str (fid ++ "-shape-" ++ padStart3 (toString (i + 1))))]) ∧
      (¬(net.vertices.length = 2 ∧ net.segments.length = 1) →
        (net.vertices.length < 3 ∨ (traceSingleLoop net.segments).length < 3) →
        stairsAuxFeatures_p3 H fid fx fy i (.vector nm lx ly net) = [])) ∧
    (featuresForNode_p3 10 gapStairsFrame).map (getProp "id") =
      [some (.str "g-stairs"), some (.str "g-stairs-shape-002")] := by
  constructor
  · intro H fid fx fy i nm lx ly net
    refine ⟨?_, ?_, ?_⟩
    · intro hc
      simp only [stairsAuxFeatures_p3]
      rw [if_pos hc]
      rfl
    · intro hnc h3 htr
      simp only [stairsAuxFeatures_p3]
      rw [if_neg hnc, if_pos h3, if_pos htr]
      rfl
    · intro hnc hlt
      simp only [stairsAuxFeatures_p3]
      rw [if_neg hnc]
      rcases hlt with hlt | hlt
      · rw [if_neg (by omega)]
      · by_cases h3 : 3 ≤ net.vertices.length
        · rw [if_pos h3, if_neg (by omega)]
        · rw [if_neg h3]
  · rfl

/-- Witness for C10: the characterization applied to a concrete hatch-line
descendant at 0-based index 4, whose feature id gets suffix `005`. -/
theorem stairs_sequence_numbers_witness :
    (stairsAuxFeatures_p3 10 "w-stairs" 0 0 4
      (.vector "l" 0 0 stairsLineNetC)).map (getProp "id") =
      [some (.str ("w-stairs" ++ "-line-" ++ padStart3 (toString (4 + 1))))] :=
  (stairs_sequence_numbers.1 10 "w-stairs" 0 0 4 "l" 0 0 stairsLineNetC).1 (by decide)

end Vec2GJson
